import Mathlib

/-!
Verification development for the Canvas assignment-assistant server
(`src/index.ts`). The TypeScript source is shallowly embedded: pure string
and list manipulation is translated to structural Lean functions over
`List Char`, JS `Date` values are embedded as integer millisecond
timestamps (UTC epoch milliseconds, with an explicit local-timezone offset
parameter `off`, local wall-clock = utc + off), HTML fragments are embedded
as already-parsed DOM trees (`HNode`), and each tool/resource handler is a
total function from the outcomes of its outbound API calls (given as
`Except String _` values) to its response.

Conventions used throughout:
* JS falsy strings: a `string | null` field whose uses in the source are
  all guarded by truthiness is embedded as `Option String`, with `none`
  standing for both `null` and (where noted) the empty string.
* JS regular-expression operations used by the source
  (`replace(/\$(\d+)/g, ..)`, `split(/\s+/)`, `replace(/\n\n\n+/g, ..)`,
  `match(/^\d{4}-\d{2}-\d{2}$/)`, `replace(/_/g, ' ')`) are embedded as
  equivalent single-pass scanners over `List Char`.
* ASCII case conversion stands in for JS `toLowerCase`.
-/

/-! ## String utilities -/

/-- One step of the global replacement `replace(/\$(\d+)/g, '\\$$$1')`:
a `'$'` immediately followed by a digit is replaced by `'\'`, `'$'`,
then the digits (a maximal digit run can never start a new match, so
emitting the first digit and rescanning from the remaining characters
is equivalent to consuming the whole greedy match). -/
def escAux : List Char → List Char
  | '$' :: c :: rest => if c.isDigit then '\\' :: '$' :: c :: escAux rest else '$' :: escAux (c :: rest)
  | c :: rest => c :: escAux rest
  | [] => []

/-- `s.replace(/\$(\d+)/g, '\\$$$1')`: escape every literal `$` that is
immediately followed by digits as `\$<digits>`. -/
def escapeDollars (s : String) : String := ⟨escAux s.data⟩

/-- Whether the string contains a `'$'` immediately followed by a digit
(i.e. whether `/\$\d/` could match). -/
def hasDollarDigit : List Char → Bool
  | '$' :: c :: rest => c.isDigit || hasDollarDigit (c :: rest)
  | _ :: rest => hasDollarDigit rest
  | [] => false

/-- JS `toLowerCase`, restricted to ASCII (sufficient for this model). -/
def lowerStr (s : String) : String := ⟨s.data.map Char.toLower⟩

/-- JS `String.prototype.trim`: remove leading and trailing whitespace. -/
def trimChars (l : List Char) : List Char :=
  ((l.dropWhile Char.isWhitespace).reverse.dropWhile Char.isWhitespace).reverse

/-- JS `String.prototype.trim` on `String`. -/
def trimStr (s : String) : String := ⟨trimChars s.data⟩

/-- Does the haystack start with the needle? -/
def startsWithL : List Char → List Char → Bool
  | [], _ => true
  | _ :: _, [] => false
  | a :: as, b :: bs => a == b && startsWithL as bs

/-- Substring occurrence test over character lists. -/
def containsL (needle : List Char) : List Char → Bool
  | [] => needle.isEmpty
  | c :: t => startsWithL needle (c :: t) || containsL needle t

/-- JS `hay.includes(needle)`: substring test. -/
def strIncludes (hay needle : String) : Bool := containsL needle.data hay.data

/-- Accumulating scanner for `split(/\s+/)` followed by dropping empty
pieces: returns the maximal runs of non-whitespace characters, in order.
`acc` holds the current word, reversed. -/
def wordsAux : List Char → List Char → List String
  | [], acc => if acc.isEmpty then [] else [⟨acc.reverse⟩]
  | c :: rest, acc =>
    if c.isWhitespace then
      if acc.isEmpty then wordsAux rest [] else (⟨acc.reverse⟩ : String) :: wordsAux rest []
    else wordsAux rest (c :: acc)

/-- `s.split(/\s+/).filter(t => t.length > 0)`: whitespace-separated words. -/
def wordsOf (s : String) : List String := wordsAux s.data []

mutual

/-- `result.replace(/\n\n\n+/g, '\n\n')`: collapse every run of three or
more consecutive newlines to exactly two. After emitting two newlines,
control moves to `collapseDropNl`, which discards the rest of the run. -/
def collapseAux : List Char → List Char
  | '\n' :: '\n' :: rest => '\n' :: '\n' :: collapseDropNl rest
  | c :: rest => c :: collapseAux rest
  | [] => []

/-- Helper for `collapseAux`: two newlines were just emitted, so any
further newlines of the same run are dropped. -/
def collapseDropNl : List Char → List Char
  | '\n' :: rest => collapseDropNl rest
  | c :: rest => c :: collapseAux rest
  | [] => []

end

/-- Newline-run collapsing on `String`. -/
def collapseNewlines (s : String) : String := ⟨collapseAux s.data⟩

/-! ## HTML document model

`new JSDOM(html).window.document.body` is embedded as the list of the
body's child nodes, each an `HNode`: a text node, a comment (standing for
any non-element non-text node, which the source ignores everywhere), or an
element with tag name, attributes and child nodes. -/

inductive HNode where
  | text (s : String)
  | comment (s : String)
  | elem (tag : String) (attrs : List (String × String)) (children : List HNode)

/-- A raw HTML string together with its parse: the `doc` component models
the body children of `new JSDOM(raw).window.document`. -/
structure HtmlText where
  raw : String
  doc : List HNode

/-- Is the node an element? (`element.children` keeps only these.) -/
def isElemNode : HNode → Bool
  | .elem _ _ _ => true
  | _ => false

mutual

/-- DOM `textContent` of a node: the concatenation of all descendant
text nodes, in document order. -/
def nodeText : HNode → String
  | .text s => s
  | .comment _ => ""
  | .elem _ _ cs => listText cs

/-- DOM `textContent` of a node list. -/
def listText : List HNode → String
  | [] => ""
  | n :: ns => nodeText n ++ listText ns

end

/-- DOM `getAttribute`: the value of the first attribute with the given
name, or `none`. -/
def getAttr (attrs : List (String × String)) (k : String) : Option String :=
  match attrs.find? (fun p => p.1 == k) with
  | some p => some p.2
  | none => none

/-- `htmlToPlainText` (src/index.ts:108): `''` for a null/empty input,
otherwise the body's `textContent` with `$`-digit escaping applied. -/
def htmlToPlainText : Option HtmlText → String
  | none => ""
  | some h => if h.raw = "" then "" else escapeDollars (listText h.doc)

/-- `getTextContent` inside `convertHtmlToMarkdown` (src/index.ts:121):
an element's `textContent` with `$`-digit escaping applied. -/
def getTextContent (e : HNode) : String := escapeDollars (nodeText e)

mutual

/-- `processNode` inside `convertHtmlToMarkdown` (src/index.ts:126):
recursive tag-driven transform of one node to Markdown text. Tag names
are lowercased before dispatch (JSDOM reports them uppercase). -/
def processNode : HNode → String
  | .text s => escapeDollars s
  | .comment _ => ""
  | .elem tag attrs cs =>
    match lowerStr tag with
    | "h1" => "# " ++ getTextContent (.elem tag attrs cs) ++ "\n\n"
    | "h2" => "## " ++ getTextContent (.elem tag attrs cs) ++ "\n\n"
    | "h3" => "### " ++ getTextContent (.elem tag attrs cs) ++ "\n\n"
    | "strong" => "**" ++ getTextContent (.elem tag attrs cs) ++ "**"
    | "b" => "**" ++ getTextContent (.elem tag attrs cs) ++ "**"
    | "em" => "*" ++ getTextContent (.elem tag attrs cs) ++ "*"
    | "i" => "*" ++ getTextContent (.elem tag attrs cs) ++ "*"
    | "ul" => String.intercalate "\n" (ulItems cs) ++ "\n\n"
    | "ol" => String.intercalate "\n" (olItems 0 cs) ++ "\n\n"
    | "li" => trimStr (processList cs)
    | "p" => processList cs ++ "\n\n"
    | "br" => "\n"
    | "a" =>
      match getAttr attrs "href" with
      | some href =>
        if href ≠ "" then "[" ++ getTextContent (.elem tag attrs cs) ++ "](" ++ href ++ ")"
        else getTextContent (.elem tag attrs cs)
      | none => getTextContent (.elem tag attrs cs)
    | _ => processList cs

/-- `childNodes.map(processNode).join('')`. -/
def processList : List HNode → String
  | [] => ""
  | n :: ns => processNode n ++ processList ns

/-- `Array.from(element.children).map(li => '- ' + processNode(li))`:
element children only, each prefixed with the bullet marker. -/
def ulItems : List HNode → List String
  | [] => []
  | n :: ns => if isElemNode n then ("- " ++ processNode n) :: ulItems ns else ulItems ns

/-- `Array.from(element.children).map((li, i) => (i+1) + '. ' + processNode(li))`:
element children only, numbered by position among element children. -/
def olItems (i : Nat) : List HNode → List String
  | [] => []
  | n :: ns =>
    if isElemNode n then (toString (i + 1) ++ ". " ++ processNode n) :: olItems (i + 1) ns
    else olItems i ns

end

/-- `convertHtmlToMarkdown` (src/index.ts:116): transform the body's child
nodes, join, trim, then collapse newline runs. -/
def convertHtmlToMarkdown (doc : List HNode) : String :=
  collapseNewlines (trimStr (processList doc))

/-- A link extracted from HTML: `{text, href}`. -/
structure Link where
  text : String
  href : String
deriving DecidableEq

mutual

/-- Anchor elements of one node, in document (pre-order) order, as
`querySelectorAll('a')` returns them. -/
def anchorsOf : HNode → List HNode
  | .text _ => []
  | .comment _ => []
  | .elem tag attrs cs =>
    (if lowerStr tag == "a" then [HNode.elem tag attrs cs] else []) ++ anchorsList cs

/-- Anchor elements of a node list, in document order. -/
def anchorsList : List HNode → List HNode
  | [] => []
  | n :: ns => anchorsOf n ++ anchorsList ns

end

/-- `extractLinks` (src/index.ts:191): every anchor in document order as a
`{text, href}` pair; the text is the anchor's raw `textContent` (no
`$`-escaping in the source), a missing or null `href` becomes `''`. -/
def extractLinks : Option HtmlText → List Link
  | none => []
  | some h =>
    if h.raw = "" then []
    else (anchorsList h.doc).map (fun a =>
      { text := nodeText a
        href := match a with
          | .elem _ attrs _ => (getAttr attrs "href").getD ""
          | _ => "" })

/-! ## Date model

A JS `Date` is embedded as its time value: an integer count of
milliseconds since the UTC epoch. The environment's local timezone is
a constant offset `off` in milliseconds (local wall-clock time
= time value + `off`); JS's per-instant DST offsets are outside the
model. Integer `/` and `%` here are Euclidean, which agree with the
`floor`/`modulo` of the ECMAScript `MakeDay` algorithm for the positive
divisors used. -/

/-- Numeric value of an ASCII digit character. -/
def digitVal (c : Char) : Int := (c.toNat : Int) - 48

/-- Two-digit decimal number. -/
def twoDig (a b : Char) : Int := 10 * digitVal a + digitVal b

/-- Four-digit decimal number. -/
def fourDig (a b c d : Char) : Int := 1000 * digitVal a + 100 * digitVal b + 10 * digitVal c + digitVal d

/-- All characters are ASCII digits. -/
def allDigits (l : List Char) : Bool := l.all Char.isDigit

/-- Days since the UTC epoch of the civil date `y-m-d` (`m` in 1..12;
`d` may be out of range, adding excess days), by the standard
`days_from_civil` computation over eras of 400 years. -/
def daysFromCivil (y m d : Int) : Int :=
  let y2 := if m ≤ 2 then y - 1 else y
  let era := y2 / 400
  let yoe := y2 - era * 400
  let mp := if m > 2 then m - 3 else m + 9
  let doy := (153 * mp + 2) / 5 + d - 1
  let doe := yoe * 365 + yoe / 4 - yoe / 100 + doy
  era * 146097 + doe - 719468

/-- Time value of `new Date(y, monthIndex, day)` (local-time constructor):
ECMAScript `MakeDay` normalizes the 0-based month index by rollover into
the year, two-digit years 0..99 are mapped to 1900..1999, and the result
is converted from local wall-clock to a UTC time value. -/
def jsLocalDateMs (off y monthIndex day : Int) : Int :=
  let yy := if 0 ≤ y ∧ y ≤ 99 then 1900 + y else y
  let ym := yy + monthIndex / 12
  let mn := monthIndex % 12
  (daysFromCivil ym (mn + 1) 1 + (day - 1)) * 86400000 - off

/-- ECMAScript `TimeClip`: time values beyond ±8.64e15 ms are invalid
(`NaN`, embedded as `none`). -/
def timeClip (t : Int) : Option Int :=
  if t ≤ 8640000000000000 ∧ -8640000000000000 ≤ t then some t else none

/-- The year/month/day fields of a string matching
`/^\d{4}-\d{2}-\d{2}$/`, or `none` when the string does not match.
Matches `dateStr.split('-').map(Number)` on a matching string. -/
def bareDateFields (s : String) : Option (Int × Int × Int) :=
  match s.data with
  | [y1, y2, y3, y4, '-', m1, m2, '-', d1, d2] =>
    if y1.isDigit && y2.isDigit && y3.isDigit && y4.isDigit &&
        m1.isDigit && m2.isDigit && d1.isDigit && d2.isDigit then
      some (fourDig y1 y2 y3 y4, twoDig m1 m2, twoDig d1 d2)
    else none
  | _ => none

/-- Proleptic-Gregorian leap year test. -/
def isLeapYear (y : Int) : Bool := (y % 4 == 0 && y % 100 != 0) || y % 400 == 0

/-- Number of days in a month. -/
def daysInMonth (y m : Int) : Int :=
  if m = 2 then (if isLeapYear y then 29 else 28)
  else if m = 4 ∨ m = 6 ∨ m = 9 ∨ m = 11 then 30 else 31

/-- The date portion of an ECMAScript Date Time String:
`YYYY`, `YYYY-MM` or `YYYY-MM-DD` (omitted month/day default to 1). -/
def parseDatePartChars : List Char → Option (Int × Int × Int)
  | [a, b, c, d] =>
    if allDigits [a, b, c, d] then some (fourDig a b c d, 1, 1) else none
  | [a, b, c, d, '-', e, f] =>
    if allDigits [a, b, c, d, e, f] then some (fourDig a b c d, twoDig e f, 1) else none
  | [a, b, c, d, '-', e, f, '-', g, h] =>
    if allDigits [a, b, c, d, e, f, g, h] then some (fourDig a b c d, twoDig e f, twoDig g h)
    else none
  | _ => none

/-- The timezone designator of an ECMAScript Date Time String: absent
(`some none`), `Z` (UTC), or `±HH:MM`; anything else is a parse error. -/
def parseZoneChars : List Char → Option (Option Int)
  | [] => some none
  | ['Z'] => some (some 0)
  | ['+', h1, h2, ':', m1, m2] =>
    if allDigits [h1, h2, m1, m2] && twoDig h1 h2 ≤ 23 && twoDig m1 m2 ≤ 59 then
      some (some ((twoDig h1 h2 * 60 + twoDig m1 m2) * 60000))
    else none
  | ['-', h1, h2, ':', m1, m2] =>
    if allDigits [h1, h2, m1, m2] && twoDig h1 h2 ≤ 23 && twoDig m1 m2 ≤ 59 then
      some (some (-((twoDig h1 h2 * 60 + twoDig m1 m2) * 60000)))
    else none
  | _ => none

/-- The time portion after `T` of an ECMAScript Date Time String:
`HH:MM`, `HH:MM:SS` or `HH:MM:SS.sss`, followed by an optional timezone
designator. Returns the time of day in milliseconds and the designator's
offset (`none` when absent, meaning local time). -/
def parseTimeChars : List Char → Option (Int × Option Int)
  | h1 :: h2 :: ':' :: mi1 :: mi2 :: rest =>
    if allDigits [h1, h2, mi1, mi2] && twoDig h1 h2 ≤ 23 && twoDig mi1 mi2 ≤ 59 then
      let hm := twoDig h1 h2 * 3600000 + twoDig mi1 mi2 * 60000
      match rest with
      | ':' :: s1 :: s2 :: rest2 =>
        if allDigits [s1, s2] && twoDig s1 s2 ≤ 59 then
          let hms := hm + twoDig s1 s2 * 1000
          match rest2 with
          | '.' :: f1 :: f2 :: f3 :: rest3 =>
            if allDigits [f1, f2, f3] then
              match parseZoneChars rest3 with
              | some z => some (hms + 100 * digitVal f1 + 10 * digitVal f2 + digitVal f3, z)
              | none => none
            else none
          | _ =>
            match parseZoneChars rest2 with
            | some z => some (hms, z)
            | none => none
        else none
      | _ =>
        match parseZoneChars rest with
        | some z => some (hm, z)
        | none => none
    else none
  | _ => none

/-- Split a character list at the first `'T'`. -/
def splitOnT (l : List Char) : List Char × Option (List Char) :=
  (l.takeWhile (fun c => c ≠ 'T'),
   match l.dropWhile (fun c => c ≠ 'T') with
   | [] => none
   | _ :: rest => some rest)

/-- `new Date(dateStr)` / `Date.parse` on the ECMAScript Date Time String
Format (the interchange format; other inputs are implementation-defined in
JS and modelled as a parse failure). Date-only strings denote UTC
midnight; date-time strings without a timezone designator denote local
time; day-of-month is validated against the month's length. The modelled
subset omits expanded `±YYYYYY` years and the special hour 24. -/
def jsParseTimestamp (off : Int) (s : String) : Option Int :=
  let parts := splitOnT s.data
  match parseDatePartChars parts.1 with
  | none => none
  | some (y, m, d) =>
    if 1 ≤ m ∧ m ≤ 12 ∧ 1 ≤ d ∧ d ≤ daysInMonth y m then
      match parts.2 with
      | none => timeClip (daysFromCivil y m d * 86400000)
      | some tl =>
        match parseTimeChars tl with
        | none => none
        | some (tod, zone) =>
          match zone with
          | some z => timeClip (daysFromCivil y m d * 86400000 + tod - z)
          | none => timeClip (daysFromCivil y m d * 86400000 + tod - off)
    else none

/-- `parseDate` (src/index.ts:230): `null` for an absent/empty string;
a string matching `/^\d{4}-\d{2}-\d{2}$/` is built with the local-time
`Date(year, month-1, day)` constructor; anything else goes through
general timestamp parsing; `null` whenever the resulting `Date` is
invalid. -/
def parseDate (off : Int) : Option String → Option Int
  | none => none
  | some s =>
    if s = "" then none
    else
      match bareDateFields s with
      | some (y, m, d) => timeClip (jsLocalDateMs off y (m - 1) d)
      | none => jsParseTimestamp off s

/-- JS `date.setHours(hh, mm, ss, ms)`: replace the local time of day,
keeping the local calendar day. -/
def jsSetHours (off t hh mm ss ms : Int) : Int :=
  ((t + off) / 86400000) * 86400000 + hh * 3600000 + mm * 60000 + ss * 1000 + ms - off

/-- Truthiness of a JS `string | null | undefined` value: `null`,
`undefined` and `''` are falsy. -/
def optTruthy : Option String → Bool
  | none => false
  | some s => s ≠ ""

/-- Truthiness of a JS `number | null | undefined` value: `null`,
`undefined` and `0` are falsy. -/
def intTruthy : Option Int → Bool
  | none => false
  | some n => n ≠ 0

/-- `isDateInRange` (src/index.ts:248): a missing or unparseable date is
in range; a bound that is absent or fails to parse imposes no
restriction; a parsed `before` bound is normalized to 23:59:59.999 local
and a parsed `after` bound to 00:00:00.000 local, both inclusive. -/
def isDateInRange (off : Int) (date before after : Option String) : Bool :=
  if !optTruthy date then true
  else
    match parseDate off date with
    | none => true
    | some due =>
      let beforeFail :=
        match before with
        | none => false
        | some b =>
          if b = "" then false
          else
            match parseDate off (some b) with
            | none => false
            | some bd => decide (jsSetHours off bd 23 59 59 999 < due)
      let afterFail :=
        match after with
        | none => false
        | some a =>
          if a = "" then false
          else
            match parseDate off (some a) with
            | none => false
            | some ad => decide (due < jsSetHours off ad 0 0 0 0)
      !(beforeFail || afterFail)

/-- The two modes of `formatDate`. -/
inductive DateFmt where
  | full
  | dateOnly

/-- `formatDate` (src/index.ts:202): `'No date set'` for an absent input,
`'Invalid date'` for an unparseable one, otherwise a locale-dependent
rendering of the instant; the locale renderings are parameters of the
model (`locFull`, `locDate`). Parsing is `new Date(dateStr)`, i.e. the
general timestamp parser (not `parseDate`). -/
def formatDate (off : Int) (locFull locDate : Int → String) (fmt : DateFmt)
    (dateStr : Option String) : String :=
  match dateStr with
  | none => "No date set"
  | some s =>
    if s = "" then "No date set"
    else
      match jsParseTimestamp off s with
      | none => "Invalid date"
      | some t =>
        match fmt with
        | .dateOnly => locDate t
        | .full => locFull t

/-! ## Canvas data model

Typed records deserialized from the Canvas API, as declared in
src/index.ts. `Option` fields embed `null`/`undefined`; the
`description` field carries both the raw HTML string and its parsed
document (see `HtmlText`), with `none` standing for `null`. -/

structure CanvasCourse where
  id : Int
  name : String
  term : Option String := none
deriving DecidableEq

structure ExternalToolTag where
  url : String
  new_tab : Bool
deriving DecidableEq

structure RubricCriterion where
  id : String
  points : Int
  description : String
  long_description : Option String := none
deriving DecidableEq

structure CanvasAssignment where
  id : Int
  name : String
  description : Option HtmlText := none
  due_at : Option String := none
  points_possible : Int := 0
  submission_types : List String := []
  allowed_extensions : Option (List String) := none
  allowed_attempts : Option Int := none
  grading_type : String := "points"
  lock_at : Option String := none
  unlock_at : Option String := none
  has_group_assignment : Bool := false
  group_category_id : Option Int := none
  peer_reviews : Bool := false
  word_count : Option Int := none
  external_tool_tag_attributes : Option ExternalToolTag := none
  rubric : Option (List RubricCriterion) := none
  use_rubric_for_grading : Bool := false
  published : Bool := true
  only_visible_to_overrides : Bool := false
  locked_for_user : Bool := false
  lock_explanation : Option String := none
  turnitin_enabled : Bool := false
  vericite_enabled : Bool := false
  annotatable_attachment_id : Option Int := none
  anonymize_students : Bool := false
  require_lockdown_browser : Bool := false

/-- `AssignmentWithCourse`: an assignment tagged with the name and id of
the course it was found in. -/
structure AssignmentWithCourse extends CanvasAssignment where
  courseName : String
  courseId : Int

/-- The truthiness of `assignment.description` (a JS `string | null`):
`null` and `''` are falsy. -/
def descTruthy : Option HtmlText → Bool
  | none => false
  | some h => h.raw ≠ ""

/-- A tool handler's response content:
`{content: [{type: "text", text}], isError?}`. -/
structure ToolResult where
  text : String
  isError : Bool := false
deriving DecidableEq

/-- A resource handler's response content: `{uri, text, mimeType}`. -/
structure ResourceContents where
  uri : String
  text : String
  mimeType : String
deriving DecidableEq

/-! ## Search engine (`search_assignments`, src/index.ts:392) -/

/-- `query?.trim() || ""`: an absent query or one trimming to the empty
string normalizes to `""`. -/
def normalizeQuery : Option String → String
  | none => ""
  | some s => trimStr s

/-- `normalizedQuery === "" || normalizedQuery === "*"`. -/
def isWildcard (nq : String) : Bool := nq = "" || nq = "*"

/-- The lowercase search terms:
`normalizedQuery.toLowerCase().split(/\s+/).filter(term => term.length > 0)`. -/
def queryTerms (nq : String) : List String := wordsOf (lowerStr nq)

/-- The per-assignment text filter predicate (src/index.ts:473): some
term occurs in the lowercased title, or the description is truthy and
some term occurs in the lowercased plain-text rendering of it. -/
def assignmentMatches (nq : String) (a : CanvasAssignment) : Bool :=
  let searchTerms := queryTerms nq
  let titleMatch := searchTerms.any (fun term => strIncludes (lowerStr a.name) term)
  let descriptionMatch :=
    if descTruthy a.description then
      searchTerms.any (fun term => strIncludes (lowerStr (htmlToPlainText a.description)) term)
    else false
  titleMatch || descriptionMatch

/-- The text-filtering step: bypassed entirely for a wildcard query. -/
def matchingStep (nq : String) (assignments : List CanvasAssignment) : List CanvasAssignment :=
  if isWildcard nq then assignments else assignments.filter (assignmentMatches nq)

/-- Whether the request carried a `bucket` parameter: exactly one of the
two date bounds was supplied (src/index.ts:440-444). -/
def hasBucket (dueBefore dueAfter : Option String) : Bool :=
  (optTruthy dueAfter && !optTruthy dueBefore) || (optTruthy dueBefore && !optTruthy dueAfter)

/-- The local date-range re-check (src/index.ts:489-496): skipped (kept)
when the API's coarse bucket filter was already requested, otherwise
`isDateInRange`. -/
def keepByDate (off : Int) (dueBefore dueAfter : Option String) (a : CanvasAssignment) : Bool :=
  if (optTruthy dueAfter && !optTruthy dueBefore && hasBucket dueBefore dueAfter) ||
      (optTruthy dueBefore && !optTruthy dueAfter && hasBucket dueBefore dueAfter) then true
  else isDateInRange off a.due_at dueBefore dueAfter

/-- One course's contribution to the search results: text filter, then
date filter, then tagging with the course's name and id
(src/index.ts:471-505). -/
def courseMatches (off : Int) (nq : String) (dueBefore dueAfter : Option String)
    (c : CanvasCourse) (assignments : List CanvasAssignment) : List AssignmentWithCourse :=
  let matching := matchingStep nq assignments
  let dateFiltered := matching.filter (keepByDate off dueBefore dueAfter)
  dateFiltered.map (fun a => { toCanvasAssignment := a, courseName := c.name, courseId := c.id })

/-- The per-course fan-out loop (src/index.ts:431-510): each course's
assignment fetch outcome is given alongside the course; a failed fetch is
logged and skipped, a successful one contributes its matches in order. -/
def searchLoop (off : Int) (nq : String) (dueBefore dueAfter : Option String) :
    List (CanvasCourse × Except String (List CanvasAssignment)) → List AssignmentWithCourse
  | [] => []
  | (_, .error _) :: rest => searchLoop off nq dueBefore dueAfter rest
  | (c, .ok assignments) :: rest =>
    courseMatches off nq dueBefore dueAfter c assignments ++
      searchLoop off nq dueBefore dueAfter rest

/-- The sort comparator (src/index.ts:513-523): assignments without a
(truthy) due date sort after all others; otherwise compare parsed due
dates, treating any parse failure as a tie. -/
def compareResults (off : Int) (a b : AssignmentWithCourse) : Int :=
  if !optTruthy a.due_at && !optTruthy b.due_at then 0
  else if !optTruthy a.due_at then 1
  else if !optTruthy b.due_at then -1
  else
    match parseDate off a.due_at, parseDate off b.due_at with
    | some ta, some tb => ta - tb
    | _, _ => 0

/-- Stable insertion: `x` is placed before the first element `y` with
`le x y`. Used to embed the (ES2019+: stable) `Array.prototype.sort`. -/
def stInsert (le : α → α → Bool) (x : α) : List α → List α
  | [] => [x]
  | y :: ys => if le x y then x :: y :: ys else y :: stInsert le x ys

/-- Stable sort by repeated insertion; for a consistent comparator this
is the stable sort order that `Array.prototype.sort` must produce. -/
def stSort (le : α → α → Bool) : List α → List α
  | [] => []
  | x :: xs => stInsert le x (stSort le xs)

/-- `allResults.sort(comparator)` (src/index.ts:513). -/
def sortResults (off : Int) (l : List AssignmentWithCourse) : List AssignmentWithCourse :=
  stSort (fun a b => decide (compareResults off a b ≤ 0)) l

/-- The `due ...` caption of the result text (src/index.ts:551-554). -/
def dateRangeCaption (dueBefore dueAfter : Option String) : String :=
  let parts :=
    (if optTruthy dueAfter then ["after " ++ dueAfter.getD ""] else []) ++
    (if optTruthy dueBefore then ["before " ++ dueBefore.getD ""] else [])
  if parts.length > 0 then " due " ++ String.intercalate " and " parts else ""

/-- The `matching "..."` caption: suppressed for a wildcard query
(src/index.ts:530-531, 555-556). -/
def queryCaption (nq : String) : String :=
  if !isWildcard nq then " matching \"" ++ nq ++ "\"" else ""

/-- One entry of the search result list (src/index.ts:541-549). -/
def resultEntry (off : Int) (locFull locDate : Int → String) (a : AssignmentWithCourse) : String :=
  let dueDate := formatDate off locFull locDate .full a.due_at
  let status := if a.published then "" else " (Unpublished)"
  String.intercalate "\n"
    [ "- Course: " ++ a.courseName ++ " (ID: " ++ toString a.courseId ++ ")"
    , "  Assignment: " ++ a.name ++ status ++ " (ID: " ++ toString a.id ++ ")"
    , "  Due: " ++ dueDate ]

/-- The body of the `search_assignments` handler, after query
normalization: course resolution outcome in, text report out; an
`Except.error` models an exception escaping to the handler's catch. -/
def searchAssignmentsRun (off : Int) (locFull locDate : Int → String) (nq : String)
    (dueBefore dueAfter : Option String)
    (courseOutcomes : Except String (List (CanvasCourse × Except String (List CanvasAssignment)))) :
    Except String ToolResult :=
  match courseOutcomes with
  | .error e => .error e
  | .ok fetched =>
    if fetched.length = 0 then .ok { text := "No courses found." }
    else
      let allResults := sortResults off (searchLoop off nq dueBefore dueAfter fetched)
      let dateStr := dateRangeCaption dueBefore dueAfter
      let queryStr := queryCaption nq
      if allResults.length = 0 then
        .ok { text := "No assignments found" ++ queryStr ++ dateStr ++ "." }
      else
        .ok { text := "Found " ++ toString allResults.length ++ " assignments" ++ queryStr ++
          dateStr ++ ":\n\n" ++
          String.intercalate "\n\n" (allResults.map (resultEntry off locFull locDate)) }

/-- The `search_assignments` tool handler (src/index.ts:392-574): query
normalization, the search body, and the handler-boundary catch that turns
any failure into an error-flagged text result. The resolved candidate
course list (with each course's assignment-fetch outcome) stands for the
course-resolution API call; its `Except.error` case models that call
throwing. -/
def searchAssignmentsHandler (off : Int) (locFull locDate : Int → String)
    (query dueBefore dueAfter : Option String)
    (courseOutcomes : Except String (List (CanvasCourse × Except String (List CanvasAssignment)))) :
    Except String ToolResult :=
  match searchAssignmentsRun off locFull locDate (normalizeQuery query) dueBefore dueAfter
      courseOutcomes with
  | .ok r => .ok r
  | .error e => .ok { text := "Search failed: " ++ e, isError := true }

/-! ## `list_courses` tool handler (src/index.ts:297-338) -/

/-- One line of the course list: `- ID: {id} | {name} {termName}`. -/
def courseLine (c : CanvasCourse) : String :=
  let termName := match c.term with
    | some t => "(" ++ t ++ ")"
    | none => ""
  "- ID: " ++ toString c.id ++ " | " ++ c.name ++ " " ++ termName

/-- The `list_courses` tool handler: fetch outcome in, text report out;
every failure is converted to an error-flagged result at the boundary. -/
def listCoursesHandler (state : String)
    (fetch : Except String (List CanvasCourse)) : Except String ToolResult :=
  match fetch with
  | .error e => .ok { text := "Failed to fetch courses: " ++ e, isError := true }
  | .ok courses =>
    if courses.length = 0 then .ok { text := "No " ++ state ++ " courses found." }
    else .ok { text := "Your " ++ state ++ " courses:\n\n" ++
      String.intercalate "\n" (courses.map courseLine) }

/-! ## `get_assignment` tool handler (src/index.ts:577-742) -/

/-- The three description format types of `get_assignment`. -/
inductive FormatType where
  | full
  | plain
  | markdown

/-- `grading_type.replace(/_/g, ' ').toLowerCase()`. -/
def gradingTypeText (s : String) : String :=
  lowerStr ⟨s.data.map (fun c => if c = '_' then ' ' else c)⟩

/-- The fixed header block of the assignment report
(src/index.ts:612-623). -/
def headerLines (off : Int) (locFull locDate : Int → String) (courseId : Int)
    (a : CanvasAssignment) : List String :=
  let submissionTypes := String.intercalate ", " a.submission_types
  [ "# " ++ a.name
  , ""
  , "**Course ID:** " ++ toString courseId
  , "**Assignment ID:** " ++ toString a.id
  , "**Due Date:** " ++ formatDate off locFull locDate .full a.due_at
  , "**Points Possible:** " ++ toString a.points_possible
  , "**Status:** " ++ (if a.published then "Published" else "Unpublished") ++
      (if a.only_visible_to_overrides then " (Only visible to specific students)" else "")
  , ""
  , "## Submission Requirements"
  , "- **Submission Type:** " ++ (if submissionTypes = "" then "Not specified" else submissionTypes) ]

/-- Allowed file extensions (src/index.ts:626-628): only for
`online_upload` submissions with a non-empty extension list. -/
def extensionLines (a : CanvasAssignment) : List String :=
  if a.submission_types.contains "online_upload" then
    match a.allowed_extensions with
    | some exts =>
      if exts.length > 0 then
        ["- **Allowed File Types:** " ++
          String.intercalate ", " (exts.map (fun e => "`." ++ e ++ "`"))]
      else []
    | none => []
  else []

/-- Attempt limit (src/index.ts:631-633): shown only when
`allowed_attempts` is neither `null` nor `-1`. -/
def attemptsLines (a : CanvasAssignment) : List String :=
  match a.allowed_attempts with
  | some n => if n ≠ -1 then ["- **Allowed Attempts:** " ++ toString n] else []
  | none => []

/-- Time restrictions (src/index.ts:639-647): shown when either
timestamp is truthy. -/
def timeRestrictionLines (off : Int) (locFull locDate : Int → String)
    (a : CanvasAssignment) : List String :=
  if optTruthy a.unlock_at || optTruthy a.lock_at then
    ["- **Time Restrictions:**"] ++
    (if optTruthy a.unlock_at then
      ["  - Available from: " ++ formatDate off locFull locDate .full a.unlock_at] else []) ++
    (if optTruthy a.lock_at then
      ["  - Locks at: " ++ formatDate off locFull locDate .full a.lock_at] else [])
  else []

/-- Group assignment flag (src/index.ts:650-652). -/
def groupLines (a : CanvasAssignment) : List String :=
  if a.has_group_assignment then ["- **Group Assignment:** Yes"] else []

/-- Peer review flag (src/index.ts:655-657). -/
def peerReviewLines (a : CanvasAssignment) : List String :=
  if a.peer_reviews then ["- **Peer Reviews Required:** Yes"] else []

/-- Word count requirement (src/index.ts:660-662): `if (word_count)`,
so `0` is suppressed like `null`. -/
def wordCountLines (a : CanvasAssignment) : List String :=
  if intTruthy a.word_count then
    ["- **Required Word Count:** " ++ toString (a.word_count.getD 0)]
  else []

/-- External tool (src/index.ts:665-671): shown when
`external_tool_tag_attributes?.url` is truthy. -/
def externalToolLines (a : CanvasAssignment) : List String :=
  match a.external_tool_tag_attributes with
  | some et =>
    if et.url ≠ "" then
      ["- **External Tool Required:** Yes", "  - Tool URL: " ++ et.url] ++
      (if et.new_tab then ["  - Opens in new tab: Yes"] else [])
    else []
  | none => []

/-- Plagiarism detection flags (src/index.ts:674-678). -/
def plagiarismLines (a : CanvasAssignment) : List String :=
  if a.turnitin_enabled || a.vericite_enabled then
    ["- **Plagiarism Detection:**"] ++
    (if a.turnitin_enabled then ["  - Turnitin enabled"] else []) ++
    (if a.vericite_enabled then ["  - VeriCite enabled"] else [])
  else []

/-- One rubric criterion (src/index.ts:686-692): heading with points, the
long description when truthy, then a blank line. -/
def rubricCriterionLines (c : RubricCriterion) : List String :=
  ["### " ++ c.description ++ " (" ++ toString c.points ++ " points)"] ++
  (match c.long_description with
   | some ld => if ld ≠ "" then [ld] else []
   | none => []) ++
  [""]

/-- Rubric section (src/index.ts:681-693): shown for a non-empty rubric. -/
def rubricLines (a : CanvasAssignment) : List String :=
  match a.rubric with
  | some rs =>
    if rs.length > 0 then
      ["", "## Rubric"] ++
      (if a.use_rubric_for_grading then ["*This rubric is used for grading*", ""] else []) ++
      rs.flatMap rubricCriterionLines
    else []
  | none => []

/-- Special requirements (src/index.ts:696-703): anonymous grading,
lockdown browser, annotation (`if (annotatable_attachment_id)`, so `0`
is falsy). -/
def specialReqLines (a : CanvasAssignment) : List String :=
  let reqs :=
    (if a.anonymize_students then ["Anonymous Grading Enabled"] else []) ++
    (if a.require_lockdown_browser then ["Lockdown Browser Required"] else []) ++
    (if intTruthy a.annotatable_attachment_id then ["Annotation Required"] else [])
  if reqs.length > 0 then
    ["", "## Special Requirements", ""] ++ reqs.map (fun r => "- " ++ r)
  else []

/-- Access restrictions (src/index.ts:706-709): shown when the assignment
is locked for the user; `lock_explanation || '...'` falls back on the
default message for a falsy explanation. -/
def lockLines (a : CanvasAssignment) : List String :=
  if a.locked_for_user then
    ["", "## Access Restrictions", "",
     match a.lock_explanation with
     | some s => if s ≠ "" then s else "This assignment is currently locked."
     | none => "This assignment is currently locked."]
  else []

/-- The description text by format (src/index.ts:597-610): raw HTML,
plain text, or Markdown, each falling back to
`'No description available'` on a falsy/empty rendering. -/
def descriptionText (fmt : FormatType) (d : Option HtmlText) : String :=
  match fmt with
  | .full =>
    match d with
    | some h => if h.raw ≠ "" then h.raw else "No description available"
    | none => "No description available"
  | .plain =>
    let p := htmlToPlainText d
    if p = "" then "No description available" else p
  | .markdown =>
    match d with
    | some h => if h.raw ≠ "" then convertHtmlToMarkdown h.doc else "No description available"
    | none => "No description available"

/-- The description block (src/index.ts:711-716). -/
def descriptionLines (fmt : FormatType) (d : Option HtmlText) : List String :=
  ["", "## Description", "", descriptionText fmt d]

/-- Links section (src/index.ts:719-724): `extractLinks` runs on a truthy
description (src/index.ts:593-595); the section appears only when some
link was found. -/
def linksLines (a : CanvasAssignment) : List String :=
  let links := if descTruthy a.description then extractLinks a.description else []
  if links.length > 0 then
    ["", "## Required Materials and Links", ""] ++
    links.map (fun l => "- [" ++ l.text ++ "](" ++ l.href ++ ")")
  else []

/-- The full assignment report of `get_assignment`
(src/index.ts:612-724), as the list of pushed lines. -/
def renderAssignmentDetails (off : Int) (locFull locDate : Int → String) (courseId : Int)
    (fmt : FormatType) (a : CanvasAssignment) : List String :=
  headerLines off locFull locDate courseId a ++
  extensionLines a ++
  attemptsLines a ++
  ["- **Grading Type:** " ++ gradingTypeText a.grading_type] ++
  timeRestrictionLines off locFull locDate a ++
  groupLines a ++
  peerReviewLines a ++
  wordCountLines a ++
  externalToolLines a ++
  plagiarismLines a ++
  rubricLines a ++
  specialReqLines a ++
  lockLines a ++
  descriptionLines fmt a.description ++
  linksLines a

/-- The `get_assignment` tool handler (src/index.ts:577-742): fetch
outcome in, joined report out; every failure is converted to an
error-flagged result at the boundary. -/
def getAssignmentHandler (off : Int) (locFull locDate : Int → String) (courseId : Int)
    (fmt : FormatType) (fetch : Except String CanvasAssignment) : Except String ToolResult :=
  match fetch with
  | .error e => .ok { text := "Failed to fetch assignment details: " ++ e, isError := true }
  | .ok a => .ok { text := String.intercalate "\n" (renderAssignmentDetails off locFull locDate courseId fmt a) }

/-! ## `assignment_content` resource handler (src/index.ts:745-776) -/

/-- The `assignment_content` resource handler: on a successful fetch it
returns the formatted content; on a failed fetch it does NOT return an
error result — it throws a new wrapped error past its boundary
(src/index.ts:772-774), embedded as `Except.error`. -/
def assignmentContentHandler (off : Int) (locDateTime : Int → String) (uri : String)
    (fetch : Except String CanvasAssignment) : Except String ResourceContents :=
  match fetch with
  | .error e => .error ("Failed to fetch assignment content: " ++ e)
  | .ok a =>
    let dueLine := match a.due_at with
      | none => "No due date"
      | some s =>
        if s = "" then "No due date"
        else
          match jsParseTimestamp off s with
          | some t => locDateTime t
          | none => "Invalid Date"
    let submissionTypes := String.intercalate ", " a.submission_types
    .ok { uri := uri
          text := String.intercalate "\n"
            [ "# " ++ a.name
            , ""
            , "**Due Date:** " ++ dueLine
            , "**Points Possible:** " ++ toString a.points_possible
            , "**Submission Type:** " ++
                (if submissionTypes = "" then "Not specified" else submissionTypes)
            , ""
            , "## Description"
            , ""
            , match a.description with
              | some h => if h.raw ≠ "" then h.raw else "No description available"
              | none => "No description available" ]
          mimeType := "text/markdown" }

/-! ## Lemmas about the stable sort -/

theorem stInsert_perm (le : α → α → Bool) (x : α) (l : List α) :
    (stInsert le x l).Perm (x :: l) := by
  induction l with
  | nil => simp [stInsert]
  | cons y ys ih =>
    simp only [stInsert]
    split
    · exact List.Perm.refl _
    · exact (List.Perm.cons y ih).trans (List.Perm.swap x y ys)

theorem stSort_perm (le : α → α → Bool) (l : List α) : (stSort le l).Perm l := by
  induction l with
  | nil => simp [stSort]
  | cons x xs ih => exact (stInsert_perm le x (stSort le xs)).trans (ih.cons x)

theorem stInsert_sorted (le : α → α → Bool)
    (total : ∀ a b, le a b || le b a)
    (trans : ∀ a b c, le a b = true → le b c = true → le a c = true)
    (x : α) (l : List α)
    (h : l.Pairwise (fun a b => le a b = true)) :
    (stInsert le x l).Pairwise (fun a b => le a b = true) := by
  induction l with
  | nil => simp [stInsert]
  | cons y ys ih =>
    simp only [stInsert]
    split
    · rename_i hxy
      refine List.Pairwise.cons ?_ h
      intro b hb
      rcases List.mem_cons.mp hb with hb | hb
      · subst hb; exact hxy
      · exact trans x y b hxy (List.rel_of_pairwise_cons h hb)
    · rename_i hxy
      have hyx : le y x = true := by
        have := total x y
        simp only [Bool.or_eq_true] at this
        rcases this with h1 | h1
        · exact absurd h1 hxy
        · exact h1
      refine List.Pairwise.cons ?_ (ih h.of_cons)
      intro b hb
      have hmem := (stInsert_perm le x ys).mem_iff.mp hb
      rcases List.mem_cons.mp hmem with hb2 | hb2
      · subst hb2; exact hyx
      · exact List.rel_of_pairwise_cons h hb2

theorem stSort_sorted (le : α → α → Bool)
    (total : ∀ a b, le a b || le b a)
    (trans : ∀ a b c, le a b = true → le b c = true → le a c = true)
    (l : List α) :
    (stSort le l).Pairwise (fun a b => le a b = true) := by
  induction l with
  | nil => simp [stSort]
  | cons x xs ih => exact stInsert_sorted le total trans x _ ih

theorem stInsert_filter_pos (le : α → α → Bool) (q : α → Bool) (x : α) (l : List α)
    (compat : ∀ b, q b = true → le x b = true) (hx : q x = true) :
    (stInsert le x l).filter q = x :: l.filter q := by
  induction l with
  | nil => simp [stInsert, hx]
  | cons y ys ih =>
    simp only [stInsert]
    split
    · simp [List.filter, hx]
    · rename_i hxy
      have hqy : q y = false := by
        by_contra hc
        simp only [Bool.not_eq_false] at hc
        exact hxy (compat y hc)
      simp [List.filter_cons, hqy, ih]

theorem stInsert_filter_neg (le : α → α → Bool) (q : α → Bool) (x : α) (l : List α)
    (hx : q x = false) :
    (stInsert le x l).filter q = l.filter q := by
  induction l with
  | nil => simp [stInsert, hx]
  | cons y ys ih =>
    simp only [stInsert]
    split
    · simp [List.filter_cons, hx]
    · simp [List.filter_cons, ih]

theorem stSort_filter_stable (le : α → α → Bool) (q : α → Bool)
    (compat : ∀ a b, q a = true → q b = true → le a b = true) (l : List α) :
    (stSort le l).filter q = l.filter q := by
  induction l with
  | nil => simp [stSort]
  | cons x xs ih =>
    simp only [stSort]
    by_cases hx : q x = true
    · rw [stInsert_filter_pos le q x _ (fun b hb => compat x b hx hb) hx]
      simp [List.filter_cons, hx, ih]
    · have hx2 : q x = false := by simpa using hx
      rw [stInsert_filter_neg le q x _ hx2]
      simp [List.filter_cons, hx2, ih]

theorem stInsert_congr (le le2 : α → α → Bool) (x : α) (L : List α)
    (h : ∀ b ∈ L, le x b = le2 x b) :
    stInsert le x L = stInsert le2 x L := by
  induction L with
  | nil => rfl
  | cons y ys ih =>
    simp only [stInsert]
    rw [h y (List.mem_cons_self _ _)]
    split
    · rfl
    · rw [ih (fun b hb => h b (List.mem_cons_of_mem _ hb))]

theorem stSort_congr (le le2 : α → α → Bool) (l : List α)
    (h : ∀ a ∈ l, ∀ b ∈ l, le a b = le2 a b) :
    stSort le l = stSort le2 l := by
  induction l with
  | nil => rfl
  | cons x xs ih =>
    simp only [stSort]
    rw [ih (fun a ha b hb => h a (List.mem_cons_of_mem _ ha) b (List.mem_cons_of_mem _ hb))]
    exact stInsert_congr le le2 x _ (fun b hb =>
      h x (List.mem_cons_self _ _) b
        (List.mem_cons_of_mem _ ((stSort_perm le2 xs).mem_iff.mp hb)))

/-! ## Lemmas about `$`-escaping and substring search -/


theorem escAux_dollar_digit (d : Char) (t : List Char) (hd : d.isDigit = true) :
    escAux ('$' :: d :: t) = '\\' :: '$' :: d :: escAux t := by
  simp [escAux, hd]

theorem escAux_dollar_nondigit (d : Char) (t : List Char) (hd : d.isDigit = false) :
    escAux ('$' :: d :: t) = '$' :: escAux (d :: t) := by
  simp [escAux, hd]

theorem escAux_cons_ne (c : Char) (l : List Char) (hc : c ≠ '$') :
    escAux (c :: l) = c :: escAux l := by
  cases l with
  | nil => simp [escAux]
  | cons d t => simp [escAux, hc]

theorem startsWithL_append (m r : List Char) : startsWithL m (m ++ r) = true := by
  induction m with
  | nil => rfl
  | cons c cs ih => simp [startsWithL, ih]

theorem containsL_nil_needle : ∀ h, containsL ([] : List Char) h = true
  | [] => rfl
  | _ :: _ => by simp [containsL, startsWithL]

theorem containsL_at (m post : List Char) : ∀ pre, containsL m (pre ++ (m ++ post)) = true := by
  intro pre
  induction pre with
  | nil =>
    cases m with
    | nil => simpa using containsL_nil_needle post
    | cons c cs =>
      have hs := startsWithL_append (c :: cs) post
      simp only [List.nil_append]
      simp only [List.cons_append] at hs ⊢
      simp [containsL, hs]
  | cons p ps ih =>
    simp only [List.cons_append, containsL, List.append_eq]
    rw [ih]
    simp

/-- Every occurrence of `$1` in the input produces an occurrence of
`\$1` in the output of the escaping scan. -/
theorem escAux_escapes (n : Nat) : ∀ (l1 l2 : List Char), l1.length ≤ n →
    ∃ m1 m2, escAux (l1 ++ '$' :: '1' :: l2) = m1 ++ '\\' :: '$' :: '1' :: m2 := by
  induction n with
  | zero =>
    intro l1 l2 hlen
    have h0 : l1 = [] := List.length_eq_zero.mp (Nat.le_zero.mp hlen)
    subst h0
    refine ⟨[], escAux l2, ?_⟩
    simp only [List.nil_append]
    rw [escAux_dollar_digit '1' l2 (by decide)]
  | succ n ih =>
    intro l1 l2 hlen
    match l1 with
    | [] =>
      refine ⟨[], escAux l2, ?_⟩
      simp only [List.nil_append]
      rw [escAux_dollar_digit '1' l2 (by decide)]
    | [c] =>
      by_cases hc : c = '$'
      · subst hc
        refine ⟨['$'], escAux l2, ?_⟩
        simp only [List.cons_append, List.nil_append]
        rw [escAux_dollar_nondigit '$' ('1' :: l2) (by decide),
          escAux_dollar_digit '1' l2 (by decide)]
      · refine ⟨[c], escAux l2, ?_⟩
        simp only [List.cons_append, List.nil_append]
        rw [escAux_cons_ne c _ hc, escAux_dollar_digit '1' l2 (by decide)]
    | c :: d :: t =>
      have htail : (d :: t).length ≤ n := by
        simpa using Nat.le_of_succ_le_succ hlen
      by_cases hc : c = '$'
      · subst hc
        by_cases hd : d.isDigit
        · obtain ⟨m1, m2, hm⟩ := ih t l2 (by simp at htail; omega)
          refine ⟨'\\' :: '$' :: d :: m1, m2, ?_⟩
          simp only [List.cons_append]
          rw [escAux_dollar_digit d _ hd]
          rw [hm]
        · obtain ⟨m1, m2, hm⟩ := ih (d :: t) l2 htail
          refine ⟨'$' :: m1, m2, ?_⟩
          simp only [List.cons_append]
          rw [escAux_dollar_nondigit d _ (by simpa using hd)]
          simp only [List.cons_append] at hm
          rw [hm]
      · obtain ⟨m1, m2, hm⟩ := ih (d :: t) l2 htail
        refine ⟨c :: m1, m2, ?_⟩
        simp only [List.cons_append]
        rw [escAux_cons_ne c _ hc]
        simp only [List.cons_append] at hm
        rw [hm]

/-- If the input has no `$`-digit occurrence, the escaping scan is the
identity. -/
theorem escAux_id_of_clean (n : Nat) : ∀ l : List Char, l.length ≤ n →
    hasDollarDigit l = false → escAux l = l := by
  induction n with
  | zero =>
    intro l hlen _
    have h0 : l = [] := List.length_eq_zero.mp (Nat.le_zero.mp hlen)
    subst h0
    rfl
  | succ n ih =>
    intro l hlen hclean
    match l with
    | [] => rfl
    | [c] =>
      by_cases hc : c = '$'
      · subst hc
        rfl
      · rw [escAux_cons_ne c [] hc]
        rfl
    | c :: d :: t =>
      have htail : (d :: t).length ≤ n := by
        simpa using Nat.le_of_succ_le_succ hlen
      by_cases hc : c = '$'
      · subst hc
        have hsplit : d.isDigit = false ∧ hasDollarDigit (d :: t) = false := by
          have : hasDollarDigit ('$' :: d :: t) = (d.isDigit || hasDollarDigit (d :: t)) := by
            simp [hasDollarDigit]
          rw [this] at hclean
          simpa using hclean
        rw [escAux_dollar_nondigit d t hsplit.1, ih (d :: t) htail hsplit.2]
      · have hrest : hasDollarDigit (d :: t) = false := by
          have : hasDollarDigit (c :: d :: t) = hasDollarDigit (d :: t) := by
            simp [hasDollarDigit, hc]
          rw [this] at hclean
          exact hclean
        rw [escAux_cons_ne c _ hc, ih (d :: t) htail hrest]

/-! ## Claim C7 -/

/-- C7 counterexample: on the tag-free input `$1`, `convertHtmlToMarkdown`
produces `\$1`, not the trimmed (and newline-collapsed) input `$1` — the
`$`-digit escaping shows up even in tag-free text, so the conversion is
not the identity-after-postprocessing the claim states. -/
theorem convertHtmlToMarkdown_escapes_plain_dollar :
    convertHtmlToMarkdown [HNode.text "$1"] = "\\$1" ∧
    collapseNewlines (trimStr "$1") = "$1" ∧
    ("\\$1" : String) ≠ "$1" :=
  ⟨by decide, by decide, by decide⟩

/-- C7 (amended): on a tag-free input (a lone text node), the Markdown
conversion equals the `$`-escaped input after trimming and newline-run
collapsing; in particular, on tag-free input with no `$`-digit
occurrence, the output is exactly the trimmed, newline-collapsed input. -/
theorem convertHtmlToMarkdown_plain_text :
    (∀ s : String, convertHtmlToMarkdown [HNode.text s] =
      collapseNewlines (trimStr (escapeDollars s))) ∧
    (∀ s : String, hasDollarDigit s.data = false →
      convertHtmlToMarkdown [HNode.text s] = collapseNewlines (trimStr s)) := by
  have base : ∀ s : String, convertHtmlToMarkdown [HNode.text s] =
      collapseNewlines (trimStr (escapeDollars s)) := by
    intro s
    show collapseNewlines (trimStr (processList [HNode.text s])) = _
    have hp : processList [HNode.text s] = escapeDollars s := by
      show processNode (HNode.text s) ++ processList [] = _
      show escapeDollars s ++ "" = _
      simp
    rw [hp]
  refine ⟨base, ?_⟩
  intro s h
  have he : escapeDollars s = s := by
    show (⟨escAux s.data⟩ : String) = s
    rw [escAux_id_of_clean s.data.length s.data le_rfl h]
  rw [base s, he]

/-- C7 witness: the amended identity at a concrete `$`-free input. -/
theorem convertHtmlToMarkdown_plain_text_witness :
    hasDollarDigit "  hello world ".data = false ∧
    convertHtmlToMarkdown [HNode.text "  hello world "] =
      collapseNewlines (trimStr "  hello world ") :=
  ⟨by decide, convertHtmlToMarkdown_plain_text.2 "  hello world " (by decide)⟩

/-! ## Claim C1 -/

/-- C1 counterexample: `extractLinks` does not `$`-escape link text — the
anchor `<a href="x">$1</a>` yields the text field `$1`, not the `\$1`
the claim requires of all three conversions. -/
theorem extractLinks_does_not_escape :
    (extractLinks (some ⟨"<a href=\"x\">$1</a>",
        [HNode.elem "a" [("href", "x")] [HNode.text "$1"]]⟩)).map (fun l => l.text) =
      ["$1"] ∧
    (["$1"] : List String) ≠ ["\\$1"] :=
  ⟨by decide, by decide⟩

/-- C1 (amended): `htmlToPlainText` escapes every `$1` occurrence of the
document's text content as `\$1` (and similarly any `$`-digits
occurrence); `convertHtmlToMarkdown` escapes `$`-digit sequences in text
content (text nodes and element text alike); but `extractLinks` returns
each link's text unescaped, so a `$1` in link text stays `$1` there. -/
theorem dollar_escaping_pipeline :
    (∀ (h : HtmlText) (l1 l2 : List Char), h.raw ≠ "" →
      (listText h.doc).data = l1 ++ '$' :: '1' :: l2 →
      strIncludes (htmlToPlainText (some h)) "\\$1" = true) ∧
    (convertHtmlToMarkdown [HNode.elem "p" [] [HNode.text "Deposit $1 to enter"]] =
      "Deposit \\$1 to enter") ∧
    (convertHtmlToMarkdown [HNode.elem "b" [] [HNode.text "$1"]] = "**\\$1**") ∧
    ((extractLinks (some ⟨"<a href=\"x\">$1</a>",
        [HNode.elem "a" [("href", "x")] [HNode.text "$1"]]⟩)).map (fun l => l.text) =
      ["$1"]) := by
  refine ⟨?_, by decide, by decide, by decide⟩
  intro h l1 l2 hraw hsplit
  show containsL ("\\$1".data) (htmlToPlainText (some h)).data = true
  have hunfold : htmlToPlainText (some h) = escapeDollars (listText h.doc) := by
    simp [htmlToPlainText, hraw]
  rw [hunfold]
  obtain ⟨m1, m2, hm⟩ := escAux_escapes l1.length l1 l2 le_rfl
  show containsL ("\\$1".data) (escAux (listText h.doc).data) = true
  rw [hsplit, hm]
  have : containsL ("\\$1".data) (m1 ++ ("\\$1".data ++ m2)) = true :=
    containsL_at ("\\$1".data) m2 m1
  simpa using this

/-- A concrete description used to exercise the escaping property. -/
def winDollarDoc : HtmlText :=
  { raw := "<p>Win $1 now</p>", doc := [HNode.elem "p" [] [HNode.text "Win $1 now"]] }

/-- C1 witness: the plain-text escaping property at a concrete document
containing `$1`. -/
theorem dollar_escaping_pipeline_witness :
    (winDollarDoc.raw ≠ "" ∧
      (listText winDollarDoc.doc).data = "Win ".data ++ '$' :: '1' :: " now".data) ∧
    strIncludes (htmlToPlainText (some winDollarDoc)) "\\$1" = true :=
  ⟨⟨by decide, by decide⟩,
    dollar_escaping_pipeline.1 winDollarDoc "Win ".data " now".data (by decide) (by decide)⟩

/-! ## Claim C8 -/

/-- C8 counterexample: the `assignment_content` resource handler does
throw past its own boundary — a failed fetch is re-thrown as a wrapped
error, not returned as an error-flagged result. -/
theorem assignmentContentHandler_throws :
    assignmentContentHandler 0 (fun _ => "") "canvas://courses/1/assignments/2"
      (Except.error "API down") =
    Except.error "Failed to fetch assignment content: API down" := rfl

/-- C8 (amended): the three tool handlers never throw past their own
boundary — every outcome, including a failed fetch, is returned as a
well-formed result, with fetch failures converted to error-flagged
human-readable messages. The `assignment_content` resource handler,
however, re-throws every fetch failure as a wrapped error. -/
theorem handler_error_boundaries :
    (∀ state fetch, ∃ r, listCoursesHandler state fetch = Except.ok r) ∧
    (∀ state e, listCoursesHandler state (Except.error e) =
      Except.ok { text := "Failed to fetch courses: " ++ e, isError := true }) ∧
    (∀ off locF locD cid fmt fetch, ∃ r,
      getAssignmentHandler off locF locD cid fmt fetch = Except.ok r) ∧
    (∀ off locF locD cid fmt e,
      getAssignmentHandler off locF locD cid fmt (Except.error e) =
        Except.ok { text := "Failed to fetch assignment details: " ++ e, isError := true }) ∧
    (∀ off locF locD q db da outcomes, ∃ r,
      searchAssignmentsHandler off locF locD q db da outcomes = Except.ok r) ∧
    (∀ off locF locD q db da e,
      searchAssignmentsHandler off locF locD q db da (Except.error e) =
        Except.ok { text := "Search failed: " ++ e, isError := true }) ∧
    (∀ off loc uri e, assignmentContentHandler off loc uri (Except.error e) =
      Except.error ("Failed to fetch assignment content: " ++ e)) := by
  refine ⟨?_, fun state e => rfl, ?_, fun off locF locD cid fmt e => rfl, ?_,
    fun off locF locD q db da e => rfl, fun off loc uri e => rfl⟩
  · intro state fetch
    cases fetch with
    | error e => exact ⟨_, rfl⟩
    | ok courses =>
      refine ⟨if courses.length = 0 then { text := "No " ++ state ++ " courses found." }
        else { text := "Your " ++ state ++ " courses:\n\n" ++
          String.intercalate "\n" (courses.map courseLine) }, ?_⟩
      by_cases hlen : courses.length = 0 <;> simp [listCoursesHandler, hlen]
  · intro off locF locD cid fmt fetch
    cases fetch with
    | error e => exact ⟨_, rfl⟩
    | ok a => exact ⟨_, rfl⟩
  · intro off locF locD q db da outcomes
    unfold searchAssignmentsHandler
    cases hr : searchAssignmentsRun off locF locD (normalizeQuery q) db da outcomes with
    | error e => exact ⟨_, rfl⟩
    | ok r => exact ⟨_, rfl⟩

/-! ## Claim C5 -/

/-- An assignment surviving the text-filtering step was in the fetched
list. -/
theorem mem_of_mem_matchingStep (nq : String) (assignments : List CanvasAssignment)
    (a : CanvasAssignment) (h : a ∈ matchingStep nq assignments) : a ∈ assignments := by
  unfold matchingStep at h
  split at h
  · exact h
  · exact (List.mem_filter.mp h).1

/-- C5: the per-course loop never aborts on a failed course fetch: the
result is exactly the concatenation, in course order, of the tagged
matches of every course whose fetch succeeded; every result element is
tagged with the name and id of a successfully-fetched course it came
from; and in the two-course example where course 2's fetch fails, the
results still contain course 1's matches, tagged with course 1 only. -/
theorem searchLoop_isolates_failures :
    (∀ (off : Int) (nq : String) (db da : Option String)
        (fetched : List (CanvasCourse × Except String (List CanvasAssignment))),
      searchLoop off nq db da fetched =
        (fetched.filterMap (fun cr =>
          match cr.2 with
          | .ok assignments => some (cr.1, assignments)
          | .error _ => none)).flatMap
          (fun ca => courseMatches off nq db da ca.1 ca.2)) ∧
    (∀ (off : Int) (nq : String) (db da : Option String)
        (fetched : List (CanvasCourse × Except String (List CanvasAssignment)))
        (x : AssignmentWithCourse), x ∈ searchLoop off nq db da fetched →
      ∃ c assignments, (c, Except.ok assignments) ∈ fetched ∧
        x.courseName = c.name ∧ x.courseId = c.id ∧ x.toCanvasAssignment ∈ assignments) ∧
    ((searchLoop 0 "*" none none
        [({ id := 1, name := "Math" }, Except.ok [{ id := 11, name := "HW1" }]),
         ({ id := 2, name := "Bio" }, Except.error "fetch failed")]).map
        (fun x => (x.courseId, x.courseName, x.id)) = [(1, "Math", 11)]) := by
  refine ⟨?_, ?_, by decide⟩
  · intro off nq db da fetched
    induction fetched with
    | nil => rfl
    | cons cr rest ih =>
      obtain ⟨c, r⟩ := cr
      cases r with
      | error e => simpa [searchLoop, List.filterMap_cons] using ih
      | ok assignments => simp [searchLoop, List.filterMap_cons, ih]
  · intro off nq db da fetched x hx
    induction fetched with
    | nil => simp [searchLoop] at hx
    | cons cr rest ih =>
      obtain ⟨c, r⟩ := cr
      cases r with
      | error e =>
        obtain ⟨c2, as2, hmem, h1, h2, h3⟩ := ih (by simpa [searchLoop] using hx)
        exact ⟨c2, as2, List.mem_cons_of_mem _ hmem, h1, h2, h3⟩
      | ok assignments =>
        rw [show searchLoop off nq db da ((c, Except.ok assignments) :: rest) =
          courseMatches off nq db da c assignments ++ searchLoop off nq db da rest
          from rfl] at hx
        rcases List.mem_append.mp hx with hleft | hright
        · unfold courseMatches at hleft
          obtain ⟨a, ha, heq⟩ := List.mem_map.mp hleft
          refine ⟨c, assignments, List.mem_cons_self _ _, ?_, ?_, ?_⟩
          · rw [← heq]
          · rw [← heq]
          · rw [← heq]
            exact mem_of_mem_matchingStep nq assignments a (List.mem_filter.mp ha).1
        · obtain ⟨c2, as2, hmem, h1, h2, h3⟩ := ih hright
          exact ⟨c2, as2, List.mem_cons_of_mem _ hmem, h1, h2, h3⟩

/-- Concrete two-course search example: course 1 succeeds, course 2's
assignment fetch fails. -/
def exFetched : List (CanvasCourse × Except String (List CanvasAssignment)) :=
  [({ id := 1, name := "Math" }, Except.ok [{ id := 11, name := "HW1" }]),
   ({ id := 2, name := "Bio" }, Except.error "fetch failed")]

/-- The expected tagged result of the concrete example. -/
def exTagged : AssignmentWithCourse :=
  { toCanvasAssignment := { id := 11, name := "HW1" }, courseName := "Math", courseId := 1 }

/-- C5 witness: the tagging property at a concrete element of a concrete
search. -/
theorem searchLoop_isolates_failures_witness :
    ∃ c assignments, (c, Except.ok assignments) ∈ exFetched ∧
      exTagged.courseName = c.name ∧ exTagged.courseId = c.id ∧
      exTagged.toCanvasAssignment ∈ assignments :=
  searchLoop_isolates_failures.2.1 0 "*" none none exFetched exTagged
    (by rw [show searchLoop 0 "*" none none exFetched = [exTagged] from rfl]
        exact List.mem_singleton_self _)

/-! ## Claim C6 -/

/-- Words produced by the whitespace splitter are never empty. -/
theorem wordsAux_ne_empty : ∀ (l acc : List Char) (t : String),
    t ∈ wordsAux l acc → t.data ≠ [] := by
  intro l
  induction l with
  | nil =>
    intro acc t ht
    by_cases hacc : acc.isEmpty
    · simp [wordsAux, hacc] at ht
    · have hf : acc.isEmpty = false := by simpa using hacc
      simp [wordsAux, hf] at ht
      subst ht
      show acc.reverse ≠ []
      intro hl
      rw [List.reverse_eq_nil_iff] at hl
      exact hacc (by simp [hl])
  | cons c rest ih =>
    intro acc t ht
    by_cases hws : c.isWhitespace
    · by_cases hacc : acc.isEmpty
      · simp [wordsAux, hws, hacc] at ht
        exact ih [] t ht
      · have hf : acc.isEmpty = false := by simpa using hacc
        simp [wordsAux, hws, hf] at ht
        rcases ht with ht | ht
        · subst ht
          show acc.reverse ≠ []
          intro hl
          rw [List.reverse_eq_nil_iff] at hl
          exact hacc (by simp [hl])
        · exact ih [] t ht
    · have hf : c.isWhitespace = false := by simpa using hws
      simp [wordsAux, hf] at ht
      exact ih (c :: acc) t ht

/-- Query terms are never the empty string. -/
theorem queryTerms_ne_empty (nq : String) (t : String) (ht : t ∈ queryTerms nq) :
    t.data ≠ [] :=
  wordsAux_ne_empty (lowerStr nq).data [] t ht

/-- A nonempty needle is not contained in the empty string. -/
theorem strIncludes_empty (t : String) (ht : t.data ≠ []) :
    strIncludes "" t = false := by
  unfold strIncludes containsL
  show t.data.isEmpty = false
  simpa using ht

/-- A falsy description renders to the empty plain text. -/
theorem htmlToPlainText_of_falsy (d : Option HtmlText) (h : descTruthy d = false) :
    htmlToPlainText d = "" := by
  cases d with
  | none => rfl
  | some ht =>
    have hraw : ht.raw = "" := by simpa [descTruthy] using h
    simp [htmlToPlainText, hraw]

/-- The text-filter predicate holds exactly when some query term occurs
in the lowercased title or the lowercased plain-text description. -/
theorem assignmentMatches_iff (nq : String) (a : CanvasAssignment) :
    assignmentMatches nq a = true ↔
      ∃ t ∈ queryTerms nq, (strIncludes (lowerStr a.name) t = true ∨
        strIncludes (lowerStr (htmlToPlainText a.description)) t = true) := by
  have expand : assignmentMatches nq a =
      ((queryTerms nq).any (fun term => strIncludes (lowerStr a.name) term) ||
        (if descTruthy a.description then
          (queryTerms nq).any
            (fun term => strIncludes (lowerStr (htmlToPlainText a.description)) term)
        else false)) := rfl
  rw [expand]
  by_cases hdt : descTruthy a.description
  · rw [if_pos hdt]
    simp only [Bool.or_eq_true, List.any_eq_true]
    constructor
    · rintro (⟨t, htm, hp⟩ | ⟨t, htm, hp⟩)
      · exact ⟨t, htm, Or.inl hp⟩
      · exact ⟨t, htm, Or.inr hp⟩
    · rintro ⟨t, htm, hp | hp⟩
      · exact Or.inl ⟨t, htm, hp⟩
      · exact Or.inr ⟨t, htm, hp⟩
  · have hdt2 : descTruthy a.description = false := by simpa using hdt
    have hpt : htmlToPlainText a.description = "" := htmlToPlainText_of_falsy _ hdt2
    rw [if_neg hdt, Bool.or_false]
    simp only [List.any_eq_true]
    constructor
    · rintro ⟨t, htm, hp⟩
      exact ⟨t, htm, Or.inl hp⟩
    · rintro ⟨t, htm, hp | hp⟩
      · exact ⟨t, htm, hp⟩
      · rw [hpt] at hp
        rw [show lowerStr "" = "" from rfl] at hp
        rw [strIncludes_empty t (queryTerms_ne_empty nq t htm)] at hp
        exact absurd hp (by simp)

/-- C6: the wildcard test is exactly "empty or `*`"; a wildcard query
bypasses text filtering entirely (every fetched assignment is kept);
and for a non-wildcard query an assignment is retained by the text
filter iff at least one whitespace-separated lowercase query term is a
substring of the lowercased title or of the lowercased plain-text
rendering of the description. -/
theorem wildcard_and_text_filter :
    (∀ nq : String, isWildcard nq = true ↔ (nq = "" ∨ nq = "*")) ∧
    (∀ (nq : String) (assignments : List CanvasAssignment),
      isWildcard nq = true → matchingStep nq assignments = assignments) ∧
    (∀ (nq : String) (assignments : List CanvasAssignment) (a : CanvasAssignment),
      isWildcard nq = false →
      (a ∈ matchingStep nq assignments ↔ a ∈ assignments ∧
        ∃ t ∈ queryTerms nq, (strIncludes (lowerStr a.name) t = true ∨
          strIncludes (lowerStr (htmlToPlainText a.description)) t = true))) := by
  refine ⟨?_, ?_, ?_⟩
  · intro nq
    simp [isWildcard]
  · intro nq assignments h
    simp [matchingStep, h]
  · intro nq assignments a h
    unfold matchingStep
    rw [if_neg (by simp [h])]
    rw [List.mem_filter]
    rw [assignmentMatches_iff]

/-- A concrete assignment whose description's plain text contains
`essay`. -/
def essayA : CanvasAssignment :=
  { id := 5, name := "Project",
    description := some
      { raw := "<p>Final essay</p>", doc := [HNode.elem "p" [] [HNode.text "Final essay"]] } }

/-- C6 witness: the retention characterization at a concrete non-wildcard
query and assignment (the term `essay` matches the description's plain
text). -/
theorem wildcard_and_text_filter_witness :
    isWildcard "ESSAY draft" = false ∧
    (essayA ∈ matchingStep "ESSAY draft" [essayA] ↔ essayA ∈ [essayA] ∧
      ∃ t ∈ queryTerms "ESSAY draft", (strIncludes (lowerStr essayA.name) t = true ∨
        strIncludes (lowerStr (htmlToPlainText essayA.description)) t = true)) :=
  ⟨by decide, wildcard_and_text_filter.2.2 "ESSAY draft" [essayA] essayA (by decide)⟩

/-! ## Claim C10 -/

/-- The search loop treats any two wildcard queries identically. -/
theorem searchLoop_wildcard_congr (off : Int) (nq1 nq2 : String) (db da : Option String)
    (h1 : isWildcard nq1 = true) (h2 : isWildcard nq2 = true) :
    ∀ fetched, searchLoop off nq1 db da fetched = searchLoop off nq2 db da fetched := by
  intro fetched
  induction fetched with
  | nil => rfl
  | cons cr rest ih =>
    obtain ⟨c, r⟩ := cr
    cases r with
    | error e => simpa [searchLoop] using ih
    | ok assignments =>
      show courseMatches off nq1 db da c assignments ++ _ =
        courseMatches off nq2 db da c assignments ++ _
      rw [ih]
      unfold courseMatches matchingStep
      rw [if_pos h1, if_pos h2]

/-- The search body treats any two wildcard queries identically. -/
theorem searchRun_wildcard_congr (off : Int) (locFull locDate : Int → String)
    (nq1 nq2 : String) (db da : Option String)
    (outcomes : Except String (List (CanvasCourse × Except String (List CanvasAssignment))))
    (h1 : isWildcard nq1 = true) (h2 : isWildcard nq2 = true) :
    searchAssignmentsRun off locFull locDate nq1 db da outcomes =
      searchAssignmentsRun off locFull locDate nq2 db da outcomes := by
  unfold searchAssignmentsRun
  cases outcomes with
  | error e => rfl
  | ok fetched =>
    dsimp only
    rw [searchLoop_wildcard_congr off nq1 nq2 db da h1 h2 fetched]
    rw [show queryCaption nq1 = "" from by simp [queryCaption, h1]]
    rw [show queryCaption nq2 = "" from by simp [queryCaption, h2]]

/-- C10: a missing query, or one consisting only of whitespace, is
normalized to the empty string, which is treated as the wildcard: text
filtering is bypassed and no `matching "..."` clause is echoed in the
result text — the handler behaves exactly as it does for the explicit
wildcard queries `"*"` and `""`. -/
theorem blank_query_behaves_as_wildcard :
    ∀ q : Option String, (q = none ∨ ∃ s, q = some s ∧ trimStr s = "") →
      normalizeQuery q = "" ∧
      isWildcard (normalizeQuery q) = true ∧
      queryCaption (normalizeQuery q) = "" ∧
      (∀ (off : Int) (locFull locDate : Int → String) (db da : Option String) outcomes,
        searchAssignmentsHandler off locFull locDate q db da outcomes =
          searchAssignmentsHandler off locFull locDate (some "*") db da outcomes ∧
        searchAssignmentsHandler off locFull locDate q db da outcomes =
          searchAssignmentsHandler off locFull locDate (some "") db da outcomes) := by
  intro q hq
  have hnq : normalizeQuery q = "" := by
    rcases hq with h | ⟨s, hs, hts⟩
    · subst h; rfl
    · subst hs; simpa [normalizeQuery] using hts
  refine ⟨hnq, by simp [isWildcard, hnq], by simp [queryCaption, isWildcard, hnq], ?_⟩
  intro off locFull locDate db da outcomes
  constructor
  · unfold searchAssignmentsHandler
    rw [hnq, show normalizeQuery (some "*") = "*" from by decide]
    rw [searchRun_wildcard_congr off locFull locDate "" "*" db da outcomes
      (by decide) (by decide)]
  · unfold searchAssignmentsHandler
    rw [hnq, show normalizeQuery (some "") = "" from by decide]

/-- C10 witness: a whitespace-only query at concrete arguments. -/
theorem blank_query_behaves_as_wildcard_witness :
    ((some "  \t " : Option String) = none ∨
      ∃ s, (some "  \t " : Option String) = some s ∧ trimStr s = "") ∧
    normalizeQuery (some "  \t ") = "" ∧
    (searchAssignmentsHandler 0 (fun _ => "") (fun _ => "") (some "  \t ") none none
        (Except.ok exFetched) =
      searchAssignmentsHandler 0 (fun _ => "") (fun _ => "") (some "*") none none
        (Except.ok exFetched)) :=
  ⟨Or.inr ⟨"  \t ", rfl, by decide⟩,
    (blank_query_behaves_as_wildcard (some "  \t ") (Or.inr ⟨"  \t ", rfl, by decide⟩)).1,
    ((blank_query_behaves_as_wildcard (some "  \t ") (Or.inr ⟨"  \t ", rfl, by decide⟩)).2.2.2
      0 (fun _ => "") (fun _ => "") none none (Except.ok exFetched)).1⟩

/-! ## Claim C2 -/

/-- A bound given as `none` imposes no condition. -/
theorem noneBound (off : Int) (P : Int → Prop) :
    (∀ b bt, (none : Option String) = some b → parseDate off (some b) = some bt → P bt) ↔
      True := by
  simp

/-- A bound that fails to parse imposes no condition. -/
theorem failBound (off : Int) (P : Int → Prop) (b : String)
    (hb : parseDate off (some b) = none) :
    (∀ b2 bt, some b = some b2 → parseDate off (some b2) = some bt → P bt) ↔ True := by
  simp only [iff_true]
  intro b2 bt h1 h2
  injection h1 with h1
  subst h1
  rw [hb] at h2
  cases h2

/-- A bound that parses imposes exactly the condition at its parse. -/
theorem singleBound (off : Int) (P : Int → Prop) (b : String) (bt : Int)
    (hb : parseDate off (some b) = some bt) :
    (∀ b2 bt2, some b = some b2 → parseDate off (some b2) = some bt2 → P bt2) ↔ P bt := by
  constructor
  · intro h
    exact h b bt rfl hb
  · intro h b2 bt2 h1 h2
    injection h1 with h1
    subst h1
    rw [hb] at h2
    injection h2 with h2
    subst h2
    exact h

/-- C2: `isDateInRange` returns true when the date is absent or fails to
parse; otherwise it returns true iff the parsed date does not violate
either bound, where a bound constrains the date only when it is present
and parses — `before` normalized to 23:59:59.999 local time, `after` to
00:00:00.000 local time, both inclusive. The final conjunct specializes
to both bounds present and parsed. -/
theorem isDateInRange_spec :
    (∀ (off : Int) (before after : Option String),
      isDateInRange off none before after = true) ∧
    (∀ (off : Int) (d : String) (before after : Option String),
      parseDate off (some d) = none → isDateInRange off (some d) before after = true) ∧
    (∀ (off : Int) (d : String) (due : Int) (before after : Option String),
      parseDate off (some d) = some due →
      (isDateInRange off (some d) before after = true ↔
        ((∀ b bt, before = some b → parseDate off (some b) = some bt →
            due ≤ jsSetHours off bt 23 59 59 999) ∧
         (∀ a at2, after = some a → parseDate off (some a) = some at2 →
            jsSetHours off at2 0 0 0 0 ≤ due)))) ∧
    (∀ (off : Int) (d b a : String) (due bt at2 : Int),
      parseDate off (some d) = some due →
      parseDate off (some b) = some bt →
      parseDate off (some a) = some at2 →
      (isDateInRange off (some d) (some b) (some a) = true ↔
        (due ≤ jsSetHours off bt 23 59 59 999 ∧ jsSetHours off at2 0 0 0 0 ≤ due))) := by
  refine ⟨fun off before after => rfl, ?_, ?_, ?_⟩
  · intro off d before after h
    by_cases hd : d = "" <;> simp [isDateInRange, optTruthy, hd, h]
  · intro off d due before after hdue
    have hd : d ≠ "" := by
      intro h0
      rw [h0] at hdue
      simp [parseDate] at hdue
    have hopt : optTruthy (some d) = true := by simp [optTruthy, hd]
    rcases before with _ | b
    · rw [noneBound off (fun bt => due ≤ jsSetHours off bt 23 59 59 999)]
      rcases after with _ | a
      · rw [noneBound off (fun at2 => jsSetHours off at2 0 0 0 0 ≤ due)]
        simp [isDateInRange, hopt, hdue]
      · by_cases ha : a = ""
        · subst ha
          rw [failBound off (fun at2 => jsSetHours off at2 0 0 0 0 ≤ due) "" rfl]
          simp [isDateInRange, hopt, hdue]
        · cases hp : parseDate off (some a) with
          | none =>
            rw [failBound off (fun at2 => jsSetHours off at2 0 0 0 0 ≤ due) a hp]
            simp [isDateInRange, hopt, hdue, ha, hp]
          | some at2 =>
            rw [singleBound off (fun at2 => jsSetHours off at2 0 0 0 0 ≤ due) a at2 hp]
            simp [isDateInRange, hopt, hdue, ha, hp, not_lt]
    · by_cases hb : b = ""
      · subst hb
        rw [failBound off (fun bt => due ≤ jsSetHours off bt 23 59 59 999) "" rfl]
        rcases after with _ | a
        · rw [noneBound off (fun at2 => jsSetHours off at2 0 0 0 0 ≤ due)]
          simp [isDateInRange, hopt, hdue]
        · by_cases ha : a = ""
          · subst ha
            rw [failBound off (fun at2 => jsSetHours off at2 0 0 0 0 ≤ due) "" rfl]
            simp [isDateInRange, hopt, hdue]
          · cases hp : parseDate off (some a) with
            | none =>
              rw [failBound off (fun at2 => jsSetHours off at2 0 0 0 0 ≤ due) a hp]
              simp [isDateInRange, hopt, hdue, ha, hp]
            | some at2 =>
              rw [singleBound off (fun at2 => jsSetHours off at2 0 0 0 0 ≤ due) a at2 hp]
              simp [isDateInRange, hopt, hdue, ha, hp, not_lt]
      · cases hq : parseDate off (some b) with
        | none =>
          rw [failBound off (fun bt => due ≤ jsSetHours off bt 23 59 59 999) b hq]
          rcases after with _ | a
          · rw [noneBound off (fun at2 => jsSetHours off at2 0 0 0 0 ≤ due)]
            simp [isDateInRange, hopt, hdue, hb, hq]
          · by_cases ha : a = ""
            · subst ha
              rw [failBound off (fun at2 => jsSetHours off at2 0 0 0 0 ≤ due) "" rfl]
              simp [isDateInRange, hopt, hdue, hb, hq]
            · cases hp : parseDate off (some a) with
              | none =>
                rw [failBound off (fun at2 => jsSetHours off at2 0 0 0 0 ≤ due) a hp]
                simp [isDateInRange, hopt, hdue, hb, hq, ha, hp]
              | some at2 =>
                rw [singleBound off (fun at2 => jsSetHours off at2 0 0 0 0 ≤ due) a at2 hp]
                simp [isDateInRange, hopt, hdue, hb, hq, ha, hp, not_lt]
        | some bt =>
          rw [singleBound off (fun bt => due ≤ jsSetHours off bt 23 59 59 999) b bt hq]
          rcases after with _ | a
          · rw [noneBound off (fun at2 => jsSetHours off at2 0 0 0 0 ≤ due)]
            simp [isDateInRange, hopt, hdue, hb, hq, not_lt]
          · by_cases ha : a = ""
            · subst ha
              rw [failBound off (fun at2 => jsSetHours off at2 0 0 0 0 ≤ due) "" rfl]
              simp [isDateInRange, hopt, hdue, hb, hq, not_lt]
            · cases hp : parseDate off (some a) with
              | none =>
                rw [failBound off (fun at2 => jsSetHours off at2 0 0 0 0 ≤ due) a hp]
                simp [isDateInRange, hopt, hdue, hb, hq, ha, hp, not_lt]
              | some at2 =>
                rw [singleBound off (fun at2 => jsSetHours off at2 0 0 0 0 ≤ due) a at2 hp]
                simp [isDateInRange, hopt, hdue, hb, hq, ha, hp, not_lt, and_comm]
  · intro off d b a due bt at2 hdue hbt hat
    have hd : d ≠ "" := by
      intro h0
      rw [h0] at hdue
      simp [parseDate] at hdue
    have hb : b ≠ "" := by
      intro h0
      rw [h0] at hbt
      simp [parseDate] at hbt
    have ha : a ≠ "" := by
      intro h0
      rw [h0] at hat
      simp [parseDate] at hat
    have hopt : optTruthy (some d) = true := by simp [optTruthy, hd]
    simp [isDateInRange, hopt, hdue, hbt, hat, hb, ha, not_lt, and_comm]

/-- C2 witness: an assignment due exactly at 23:59:59.999 local time on
the `before` day, with an `after` bound four days earlier, is included. -/
theorem isDateInRange_spec_witness :
    (parseDate 0 (some "2024-03-05T23:59:59.999") = some 1709683199999 ∧
      parseDate 0 (some "2024-03-05") = some 1709596800000 ∧
      parseDate 0 (some "2024-03-01") = some 1709251200000) ∧
    isDateInRange 0 (some "2024-03-05T23:59:59.999") (some "2024-03-05")
      (some "2024-03-01") = true :=
  ⟨⟨by decide, by decide, by decide⟩,
    (isDateInRange_spec.2.2.2 0 "2024-03-05T23:59:59.999" "2024-03-05" "2024-03-01"
      1709683199999 1709596800000 1709251200000
      (by decide) (by decide) (by decide)).mpr (by decide)⟩

/-! ## Claim C4 -/

/-- The sort key of a result: its parsed due date, or `none` when the due
date is absent (or empty). Under `wellKeyed`, parse failures do not
occur, so `none` means exactly "no due date". -/
def dueKey (off : Int) (a : AssignmentWithCourse) : Option Int :=
  if optTruthy a.due_at then parseDate off a.due_at else none

/-- Order on sort keys: absent due dates sort after all present ones. -/
def keyLe : Option Int → Option Int → Bool
  | none, none => true
  | none, some _ => false
  | some _, none => true
  | some x, some y => decide (x ≤ y)

/-- A result is well-keyed when its due date, if truthy, parses. -/
def wellKeyed (off : Int) (a : AssignmentWithCourse) : Bool :=
  !optTruthy a.due_at || (parseDate off a.due_at).isSome

theorem keyLe_total (k1 k2 : Option Int) : (keyLe k1 k2 || keyLe k2 k1) = true := by
  cases k1 <;> cases k2 <;> simp [keyLe] <;> omega

theorem keyLe_trans (k1 k2 k3 : Option Int) (h1 : keyLe k1 k2 = true)
    (h2 : keyLe k2 k3 = true) : keyLe k1 k3 = true := by
  cases k1 <;> cases k2 <;> cases k3 <;> simp [keyLe] at * <;> omega

theorem keyLe_refl (k : Option Int) : keyLe k k = true := by
  cases k <;> simp [keyLe]

/-- On well-keyed results, the source comparator agrees with the key
order. -/
theorem compare_le_iff_keyLe (off : Int) (a b : AssignmentWithCourse)
    (ha : wellKeyed off a = true) (hb : wellKeyed off b = true) :
    decide (compareResults off a b ≤ 0) = keyLe (dueKey off a) (dueKey off b) := by
  unfold wellKeyed at ha hb
  unfold compareResults dueKey
  by_cases hta : optTruthy a.due_at = true <;> by_cases htb : optTruthy b.due_at = true
  · simp only [hta, htb, Bool.not_true, Bool.or_false, Bool.false_and, Bool.false_or] at ha hb ⊢
    obtain ⟨ka, hka⟩ := Option.isSome_iff_exists.mp ha
    obtain ⟨kb, hkb⟩ := Option.isSome_iff_exists.mp hb
    rw [hka, hkb]
    simp only [if_true, ite_true, keyLe]
    simp [sub_nonpos]
  · have htb2 : optTruthy b.due_at = false := by simpa using htb
    simp only [hta, htb2, Bool.not_true, Bool.not_false, Bool.or_false, Bool.false_or] at ha ⊢
    obtain ⟨ka, hka⟩ := Option.isSome_iff_exists.mp ha
    rw [hka]
    simp [keyLe]
  · have hta2 : optTruthy a.due_at = false := by simpa using hta
    simp only [hta2, htb, Bool.not_true, Bool.not_false, Bool.or_false, Bool.false_or] at hb ⊢
    obtain ⟨kb, hkb⟩ := Option.isSome_iff_exists.mp hb
    rw [hkb]
    simp [keyLe]
  · have hta2 : optTruthy a.due_at = false := by simpa using hta
    have htb2 : optTruthy b.due_at = false := by simpa using htb
    simp [hta2, htb2, keyLe]

/-- Concrete example: due dates March 1st, none, January 1st, in ids
1, 2, 3 respectively. -/
def exSortList : List AssignmentWithCourse :=
  [ { toCanvasAssignment := { id := 1, name := "March", due_at := some "2024-03-01" },
      courseName := "C", courseId := 9 },
    { toCanvasAssignment := { id := 2, name := "NoDue" }, courseName := "C", courseId := 9 },
    { toCanvasAssignment := { id := 3, name := "January", due_at := some "2024-01-01" },
      courseName := "C", courseId := 9 } ]

/-- C4: on any result list whose (truthy) due dates all parse, the final
sort is a permutation of the input, pairwise ordered by parsed due date
with absent due dates after all present ones, and stable: the elements
of any fixed key keep their original relative order. On the concrete
example with due dates [2024-03-01, none, 2024-01-01] the sorted ids are
[3, 1, 2], i.e. [2024-01-01, 2024-03-01, none]. -/
theorem sortResults_spec :
    (∀ (off : Int) (l : List AssignmentWithCourse),
      (∀ x ∈ l, wellKeyed off x = true) →
      (sortResults off l).Perm l ∧
      (sortResults off l).Pairwise (fun a b => keyLe (dueKey off a) (dueKey off b) = true) ∧
      (∀ k : Option Int, (sortResults off l).filter (fun a => dueKey off a == k) =
        l.filter (fun a => dueKey off a == k))) ∧
    ((sortResults 0 exSortList).map (fun r => r.id) = [3, 1, 2]) := by
  refine ⟨?_, by decide⟩
  intro off l hwk
  have hcongr : sortResults off l = stSort (fun a b => keyLe (dueKey off a) (dueKey off b)) l := by
    unfold sortResults
    apply stSort_congr
    intro a ha b hb
    exact compare_le_iff_keyLe off a b (hwk a ha) (hwk b hb)
  refine ⟨?_, ?_, ?_⟩
  · rw [hcongr]
    exact stSort_perm _ l
  · rw [hcongr]
    exact stSort_sorted (fun a b => keyLe (dueKey off a) (dueKey off b))
      (fun a b => keyLe_total (dueKey off a) (dueKey off b))
      (fun a b c => keyLe_trans (dueKey off a) (dueKey off b) (dueKey off c)) l
  · intro k
    rw [hcongr]
    apply stSort_filter_stable
    intro a b hqa hqb
    have hka : dueKey off a = k := by simpa using hqa
    have hkb : dueKey off b = k := by simpa using hqb
    rw [hka, hkb]
    exact keyLe_refl k

/-- C4 witness: the sort properties at the concrete example list. -/
theorem sortResults_spec_witness :
    (∀ x ∈ exSortList, wellKeyed 0 x = true) ∧ (sortResults 0 exSortList).Perm exSortList :=
  ⟨by decide, (sortResults_spec.1 0 exSortList (by decide)).1⟩

/-! ## Claim C9 -/

/-- A falsy description yields no links. -/
theorem extractLinks_falsy (d : Option HtmlText) (h : descTruthy d = false) :
    extractLinks d = [] := by
  cases d with
  | none => rfl
  | some ht =>
    have hraw : ht.raw = "" := by simpa [descTruthy] using h
    simp [extractLinks, hraw]

/-- Concrete assignments for the attempt-limit examples. -/
def exAttempts3 : CanvasAssignment := { id := 7, name := "Essay", allowed_attempts := some 3 }

def exAttemptsNeg : CanvasAssignment := { id := 7, name := "Essay", allowed_attempts := some (-1) }

def exAttemptsNone : CanvasAssignment := { id := 7, name := "Essay" }

/-- C9: each conditional section of the assignment report appears iff its
source field is present/truthy (the report `renderAssignmentDetails` is,
by definition, the concatenation of the header and these sections in
push order): attempts iff `allowed_attempts` is neither null nor `-1`
(rendering `- **Allowed Attempts:** n` otherwise), time restrictions iff
a truthy `unlock_at` or `lock_at`, group/peer-review flags iff set,
external tool iff a truthy tool url, plagiarism iff either detector
flag, rubric iff a non-empty rubric, special requirements iff any of the
three special flags, lock explanation iff `locked_for_user`, links iff
`extractLinks` finds an anchor. Concretely, `allowed_attempts = 3`
renders the `- **Allowed Attempts:** 3` line while `-1` and null render
no line mentioning `Allowed Attempts`. -/
theorem getAssignment_sections :
    (∀ (a : CanvasAssignment) (n : Int), a.allowed_attempts = some n → n ≠ -1 →
      attemptsLines a = ["- **Allowed Attempts:** " ++ toString n]) ∧
    (∀ a : CanvasAssignment, attemptsLines a = [] ↔
      (a.allowed_attempts = none ∨ a.allowed_attempts = some (-1))) ∧
    (∀ (off : Int) (lf ld : Int → String) (a : CanvasAssignment),
      timeRestrictionLines off lf ld a = [] ↔
        (optTruthy a.unlock_at = false ∧ optTruthy a.lock_at = false)) ∧
    (∀ a : CanvasAssignment, groupLines a = [] ↔ a.has_group_assignment = false) ∧
    (∀ a : CanvasAssignment, peerReviewLines a = [] ↔ a.peer_reviews = false) ∧
    (∀ a : CanvasAssignment, externalToolLines a ≠ [] ↔
      ∃ et, a.external_tool_tag_attributes = some et ∧ et.url ≠ "") ∧
    (∀ a : CanvasAssignment, plagiarismLines a = [] ↔
      (a.turnitin_enabled = false ∧ a.vericite_enabled = false)) ∧
    (∀ a : CanvasAssignment, rubricLines a ≠ [] ↔ ∃ rs, a.rubric = some rs ∧ rs ≠ []) ∧
    (∀ a : CanvasAssignment, specialReqLines a = [] ↔
      (a.anonymize_students = false ∧ a.require_lockdown_browser = false ∧
        intTruthy a.annotatable_attachment_id = false)) ∧
    (∀ a : CanvasAssignment, lockLines a = [] ↔ a.locked_for_user = false) ∧
    (∀ a : CanvasAssignment, linksLines a = [] ↔ extractLinks a.description = []) ∧
    (("- **Allowed Attempts:** 3") ∈ renderAssignmentDetails 0 (fun _ => "LOC") (fun _ => "LOC")
      42 FormatType.markdown exAttempts3) ∧
    ((renderAssignmentDetails 0 (fun _ => "LOC") (fun _ => "LOC") 42 FormatType.markdown
      exAttemptsNeg).all (fun ln => !(strIncludes ln "Allowed Attempts")) = true) ∧
    ((renderAssignmentDetails 0 (fun _ => "LOC") (fun _ => "LOC") 42 FormatType.markdown
      exAttemptsNone).all (fun ln => !(strIncludes ln "Allowed Attempts")) = true) := by
  refine ⟨?_, ?_, ?_, ?_, ?_, ?_, ?_, ?_, ?_, ?_, ?_, by decide, by decide, by decide⟩
  · intro a n h hne
    simp [attemptsLines, h, hne]
  · intro a
    unfold attemptsLines
    cases h : a.allowed_attempts with
    | none => simp
    | some n =>
      by_cases hn : n = -1
      · subst hn; simp
      · simp [hn]
  · intro off lf ld a
    unfold timeRestrictionLines
    by_cases h1 : optTruthy a.unlock_at <;> by_cases h2 : optTruthy a.lock_at <;> simp [h1, h2]
  · intro a
    unfold groupLines
    by_cases h : a.has_group_assignment <;> simp [h]
  · intro a
    unfold peerReviewLines
    by_cases h : a.peer_reviews <;> simp [h]
  · intro a
    unfold externalToolLines
    cases h : a.external_tool_tag_attributes with
    | none => simp
    | some et =>
      by_cases hu : et.url = ""
      · simp [hu]
      · simp [hu]
  · intro a
    unfold plagiarismLines
    by_cases h1 : a.turnitin_enabled <;> by_cases h2 : a.vericite_enabled <;> simp [h1, h2]
  · intro a
    unfold rubricLines
    cases h : a.rubric with
    | none => simp
    | some rs =>
      by_cases hl : rs.length > 0
      · simp [hl]
        exact fun h0 => by simp [h0] at hl
      · simp [hl]
        exact List.length_eq_zero.mp (by omega)
  · intro a
    unfold specialReqLines
    by_cases h1 : a.anonymize_students <;> by_cases h2 : a.require_lockdown_browser <;>
      by_cases h3 : intTruthy a.annotatable_attachment_id <;> simp [h1, h2, h3]
  · intro a
    unfold lockLines
    by_cases h : a.locked_for_user <;> simp [h]
  · intro a
    unfold linksLines
    by_cases hdt : descTruthy a.description
    · simp only [hdt, if_true, ite_true]
      by_cases hl : (extractLinks a.description).length > 0
      · simp [hl]
        intro h0
        simp [h0] at hl
      · have h0 : extractLinks a.description = [] := by
          simpa using List.length_eq_zero.mp (by omega : (extractLinks a.description).length = 0)
        simp [h0]
    · have hf : descTruthy a.description = false := by simpa using hdt
      have h0 : extractLinks a.description = [] := extractLinks_falsy _ hf
      simp [hf, h0]

/-- C9 witness: the attempts line at `allowed_attempts = 3`. -/
theorem getAssignment_sections_witness :
    exAttempts3.allowed_attempts = some 3 ∧
    attemptsLines exAttempts3 = ["- **Allowed Attempts:** " ++ toString (3 : Int)] :=
  ⟨rfl, getAssignment_sections.1 exAttempts3 3 rfl (by decide)⟩

/-! ## Claim C3 -/

/-- C3 counterexample: the bare-date string `2024-13-01` has an
out-of-range month, yet `parseDate` does not return `none`: the JS
`Date(year, monthIndex, day)` constructor normalizes month 13 of 2024 by
rollover to January 2025 (time value 1735689600000 at offset 0). -/
theorem parseDate_rolls_over_invalid_month :
    parseDate 0 (some "2024-13-01") = some 1735689600000 ∧
    parseDate 0 (some "2024-13-01") ≠ none ∧
    jsLocalDateMs 0 2024 12 1 = 1735689600000 :=
  ⟨by decide, by decide, by decide⟩

theorem digitVal_bounds (c : Char) (h : c.isDigit = true) :
    0 ≤ digitVal c ∧ digitVal c ≤ 9 := by
  simp only [Char.isDigit, Bool.and_eq_true, decide_eq_true_eq] at h
  obtain ⟨h1, h2⟩ := h
  have h1n : 48 ≤ c.val.toNat := h1
  have h2n : c.val.toNat ≤ 57 := h2
  unfold digitVal
  unfold Char.toNat
  omega

/-- The fields of a matched bare date are bounded by their digit counts,
and the matched string is nonempty. -/
theorem bareDateFields_bounds (s : String) (y m d : Int)
    (h : bareDateFields s = some (y, m, d)) :
    0 ≤ y ∧ y ≤ 9999 ∧ 0 ≤ m ∧ m ≤ 99 ∧ 0 ≤ d ∧ d ≤ 99 ∧ s ≠ "" := by
  unfold bareDateFields at h
  split at h
  · rename_i c1 c2 c3 c4 c5 c6 c7 c8 heq
    by_cases hc : (c1.isDigit && c2.isDigit && c3.isDigit && c4.isDigit &&
        c5.isDigit && c6.isDigit && c7.isDigit && c8.isDigit) = true
    · rw [if_pos hc] at h
      injection h with h2
      simp only [Prod.mk.injEq] at h2
      obtain ⟨hy, hm, hd⟩ := h2
      subst hy
      subst hm
      subst hd
      simp only [Bool.and_eq_true] at hc
      obtain ⟨⟨⟨⟨⟨⟨⟨hc1, hc2⟩, hc3⟩, hc4⟩, hc5⟩, hc6⟩, hc7⟩, hc8⟩ := hc
      obtain ⟨p1, q1⟩ := digitVal_bounds c1 hc1
      obtain ⟨p2, q2⟩ := digitVal_bounds c2 hc2
      obtain ⟨p3, q3⟩ := digitVal_bounds c3 hc3
      obtain ⟨p4, q4⟩ := digitVal_bounds c4 hc4
      obtain ⟨p5, q5⟩ := digitVal_bounds c5 hc5
      obtain ⟨p6, q6⟩ := digitVal_bounds c6 hc6
      obtain ⟨p7, q7⟩ := digitVal_bounds c7 hc7
      obtain ⟨p8, q8⟩ := digitVal_bounds c8 hc8
      refine ⟨?_, ?_, ?_, ?_, ?_, ?_, ?_⟩
      · unfold fourDig; omega
      · unfold fourDig; omega
      · unfold twoDig; omega
      · unfold twoDig; omega
      · unfold twoDig; omega
      · unfold twoDig; omega
      · intro h0
        rw [h0] at heq
        simp at heq
    · rw [if_neg hc] at h
      exact absurd h (by simp)
  · exact absurd h (by simp)

/-- The time value of the local-date constructor on four-digit-year bare
dates stays far inside the valid `Date` range, for any realistic
timezone offset. -/
theorem jsLocalDateMs_in_range (off y mi d : Int)
    (hy0 : 0 ≤ y) (hy1 : y ≤ 9999) (hm0 : -1 ≤ mi) (hm1 : mi ≤ 98)
    (hd0 : 0 ≤ d) (hd1 : d ≤ 99) (ho0 : -86400000 ≤ off) (ho1 : off ≤ 86400000) :
    -8640000000000000 ≤ jsLocalDateMs off y mi d ∧
      jsLocalDateMs off y mi d ≤ 8640000000000000 := by
  unfold jsLocalDateMs daysFromCivil
  dsimp only
  split_ifs <;> omega

/-- C3 (amended): `parseDate` returns `none` for an absent or empty
string; on a string matching `digit{4}-digit{2}-digit{2}` it always
succeeds (for any timezone offset up to a day), returning the
local-midnight date built by the JS `Date(year, month-1, day)`
constructor — which normalizes an out-of-range month or day by rollover
instead of rejecting it; any other string goes through general timestamp
parsing, whose failures (and only those) yield `none`. -/
theorem parseDate_spec :
    (∀ off : Int, parseDate off none = none) ∧
    (∀ off : Int, parseDate off (some "") = none) ∧
    (∀ (off : Int) (s : String) (y m d : Int),
      bareDateFields s = some (y, m, d) → -86400000 ≤ off → off ≤ 86400000 →
      parseDate off (some s) = some (jsLocalDateMs off y (m - 1) d)) ∧
    (∀ (off : Int) (s : String), s ≠ "" → bareDateFields s = none →
      parseDate off (some s) = jsParseTimestamp off s) := by
  refine ⟨fun off => rfl, fun off => rfl, ?_, ?_⟩
  · intro off s y m d h ho0 ho1
    obtain ⟨hy0, hy1, hm0, hm1, hd0, hd1, hne⟩ := bareDateFields_bounds s y m d h
    obtain ⟨hr0, hr1⟩ := jsLocalDateMs_in_range off y (m - 1) d hy0 hy1
      (by omega) (by omega) hd0 hd1 ho0 ho1
    simp only [parseDate, hne, ite_false, h]
    unfold timeClip
    rw [if_pos ⟨hr1, hr0⟩]
  · intro off s hne h
    simp only [parseDate, hne, ite_false, h]

/-- C3 witness: the bare-date success case at the rollover input. -/
theorem parseDate_spec_witness :
    bareDateFields "2024-13-01" = some (2024, 13, 1) ∧
    parseDate 0 (some "2024-13-01") = some (jsLocalDateMs 0 2024 (13 - 1) 1) :=
  ⟨by decide,
    parseDate_spec.2.2.1 0 "2024-13-01" 2024 13 1 (by decide) (by decide) (by decide)⟩
